import Mathlib

/-!
# mcpe_viz utility code: a shallow embedding of `mcpe_viz.util.h`

The development embeds the parts of `src/mcpe_viz.util.h` that the
specification speaks about:

* `ColorInfo::calcHSL` (packed colour channels),
* `JavaRandom` (`setSeed`, `next`, `nextInt`),
* `PngWriter` / `PngReader` (`open`, `init`, `close`),
* `PngTiler::doTile` (the tile decomposition loop).

Conventions of the embedding.

* C `int`, `int32_t`, `int64_t` values are `Int`.  In `ColorInfo` and
  `JavaRandom` the wrap-around of the conversions is written out with
  `% 2 ^ 32` or `% 2 ^ 64`; in `doTile` an `int` product or sum outside the
  32-bit range is undefined (`checkInt`).
* Bytes (`uint8_t`) are natural numbers; they are only copied and compared.
* A pointer is `Option` of what it points to (`none` is `nullptr`), or a
  `Bool` (non-null) when only the null test matters.
* The libpng calls and the C library calls are effects: they are recorded
  as `Action`s / `Event`s, and their results (does `fopen` succeed, which
  pixels did the reader decode) come from an explicit environment.
* A computation that leaves defined C++ behaviour (a signed `int`
  overflow, a division by zero, an out-of-bounds access, a store through an
  invalid pointer, an array `new` of negative size, a `sprintf` past its
  buffer) has result `none`; so has a run that a libpng error ends (by
  `abort()` in `PngWriter::open`, by `longjmp` out of `PngReader::read`).
* In `JavaRandom`, whose arithmetic emulates Java's wrapping arithmetic, an
  overflowing `int64_t` operation is taken modulo `2 ^ 64`.

What the embedding takes for granted: memory allocation succeeds, a source
that libpng decodes is an 8-bit RGB or RGBA raster, so that a source row
has `width * bpp` bytes, and the libpng calls that write to an open tile
file (`png_write_info`, `png_write_image`, `png_write_end`) meet no I/O
error.  The `close()` calls made by the destructors at the end of `doTile`
(all tile writers are closed by then) are not part of the embedding.
-/

namespace mcpe_viz

/-! ## Machine integers -/

/-- The unsigned 32-bit pattern of an `int32_t` value. -/
def u32 (x : Int) : Nat := (x % 4294967296).toNat

/-- The `int32_t` value of a bit pattern (conversion to `int32_t`). -/
def toInt32 (n : Nat) : Int :=
  if n % 4294967296 < 2147483648 then (n % 4294967296 : Nat) else (n % 4294967296 : Nat) - 4294967296

/-- The unsigned 64-bit pattern of an `int64_t` value. -/
def u64 (x : Int) : Nat := (x % 18446744073709551616).toNat

/-- The `int64_t` value of a bit pattern (conversion to `int64_t`). -/
def toInt64 (n : Nat) : Int :=
  if n % 18446744073709551616 < 9223372036854775808 then (n % 18446744073709551616 : Nat)
  else (n % 18446744073709551616 : Nat) - 18446744073709551616

/-- C `a & b` on `int` operands. -/
def and32 (a b : Int) : Int := toInt32 (u32 a &&& u32 b)

/-- C `a | b` on `int` operands. -/
def or32 (a b : Int) : Int := toInt32 (u32 a ||| u32 b)

/-- C `a << k` on `int` operands (the bits that leave the word are dropped). -/
def shl32 (a : Int) (k : Nat) : Int := toInt32 (u32 a <<< k)

/-- C `a >> k` on a signed operand: the arithmetic shift, which is the floor
division by `2 ^ k`. -/
def sar (a : Int) (k : Nat) : Int := a / 2 ^ k

/-! ## ColorInfo -/

/-- The class `ColorInfo`.  The three doubles `h`, `s`, `l` are kept as one
value of an abstract type: they are produced by `rgb2hsb`, which is only
declared in this header. -/
structure ColorInfo (α : Type) where
  name : String
  color : Int
  r : Int
  g : Int
  b : Int
  hsl : α

/-- The method `ColorInfo::calcHSL`; `rgb2hsb r g b` stands for the values
that the call `rgb2hsb(r,g,b, h,s,l)` leaves in `h`, `s`, `l` (all three are
`0.0` before the call).  Returns the status and the updated object. -/
def ColorInfo.calcHSL {α : Type} (rgb2hsb : Int → Int → Int → α) (ci : ColorInfo α) :
    Int × ColorInfo α :=
  let r := sar (and32 ci.color 0xFF0000) 16
  let g := sar (and32 ci.color 0xFF00) 8
  let b := and32 ci.color 0xFF
  (0, { ci with r := r, g := g, b := b, hsl := rgb2hsb r g b })

/-- The constructor `ColorInfo(n, c)`: stores the name and the colour, then
calls `calcHSL`.  `uninit` holds the indeterminate initial values of the other
members. -/
def ColorInfo.new {α : Type} (rgb2hsb : Int → Int → Int → α) (uninit : ColorInfo α)
    (n : String) (c : Int) : ColorInfo α :=
  (ColorInfo.calcHSL rgb2hsb { uninit with name := n, color := c }).2

/-! ## JavaRandom -/

/-- The class `JavaRandom`: its only member is the `int64_t seed`. -/
structure JavaRandom where
  seed : Int
  deriving DecidableEq

/-- The mask `((int64_t)1 << 48) - 1`. -/
def seedMask : Nat := 281474976710655

/-- The method `JavaRandom::setSeed`:
`seed = (newseed ^ 0x5DEECE66D) & (((int64_t)1 << 48) - 1)`. -/
def JavaRandom.setSeed (_ : JavaRandom) (newseed : Int) : JavaRandom :=
  { seed := toInt64 ((u64 newseed ^^^ u64 0x5DEECE66D) &&& seedMask) }

/-- The method `JavaRandom::next`: the new object and the returned `int32_t`.
The product `seed * 0x5DEECE66D` is taken modulo `2 ^ 64` (the two's
complement result of the `int64_t` multiplication), the shift is the
unsigned one of `(uint64_t)seed >> (48 - bits)`; the shift count must lie in
`0 .. 63`, otherwise the shift is undefined. -/
def JavaRandom.next (j : JavaRandom) (bits : Int) : Option (JavaRandom × Int) :=
  let seed := toInt64 (u64 (toInt64 (u64 (toInt64 (u64 (j.seed * 0x5DEECE66D)) + 0xB))) &&& seedMask)
  if 0 ≤ 48 - bits ∧ 48 - bits < 64 then
    let ret := toInt64 (u64 seed >>> (48 - bits).toNat)
    some ({ seed := seed }, toInt32 (u64 ret))
  else none

/-- The body of the `do ... while` loop of `JavaRandom::nextInt`, run at most
`fuel` times: `bits = next(31); val = bits % bound;` and the test
`bits - val + (bound - 1) < 0`.  `bits - val` is an `int` subtraction, the
sum with the `int64_t` value `bound - 1` and the comparison are 64-bit. -/
def JavaRandom.nextIntLoop (bound : Int) : Nat → JavaRandom → Option (JavaRandom × Int)
  | 0, _ => none
  | fuel + 1, j =>
    match j.next 31 with
    | none => none
    | some (j1, bits) =>
      if bound = 0 then none
      else
        let val := toInt32 (u64 (Int.tmod bits bound))
        if toInt64 (u64 (toInt32 (u32 (bits - val)) + toInt64 (u64 (bound - 1)))) < 0 then
          JavaRandom.nextIntLoop bound fuel j1
        else some (j1, val)

/-- The method `JavaRandom::nextInt(int64_t bound)`, with `fuel` bounding the
number of rounds of its loop. -/
def JavaRandom.nextInt (fuel : Nat) (j : JavaRandom) (bound : Int) : Option (JavaRandom × Int) :=
  if toInt64 (u64 bound &&& u64 (-bound)) = bound then
    match j.next 31 with
    | none => none
    | some (j1, r) => some (j1, toInt32 (u64 (sar (toInt64 (u64 (bound * r))) 31)))
  else JavaRandom.nextIntLoop bound fuel j

/-! ### The algorithm documented for `java.util.Random`

The following definitions follow the documentation of `java.util.Random`
(the reference the claim names), not the C++ source. -/

/-- The state of a `java.util.Random`: the 48-bit seed. -/
structure JavaUtilRandom where
  seed : Nat
  deriving DecidableEq

/-- Documented `setSeed(long seed)`:
`(seed ^ 0x5DEECE66DL) & ((1L << 48) - 1)`. -/
def JavaUtilRandom.setSeed (newseed : Int) : JavaUtilRandom :=
  { seed := (u64 newseed ^^^ 0x5DEECE66D) % 2 ^ 48 }

/-- Documented `next(int bits)`: the seed becomes
`(seed * 0x5DEECE66DL + 0xBL) & ((1L << 48) - 1)` and the result is
`(int)(seed >>> (48 - bits))`. -/
def JavaUtilRandom.next (j : JavaUtilRandom) (bits : Nat) : JavaUtilRandom × Int :=
  let seed := (j.seed * 0x5DEECE66D + 0xB) % 2 ^ 48
  ({ seed := seed }, toInt32 (seed / 2 ^ (48 - bits)))

/-- Documented rejection loop of `nextInt(int bound)`:
`do { bits = next(31); val = bits % bound; } while (bits - val + (bound-1) < 0);`
in 32-bit wrapping `int` arithmetic. -/
def JavaUtilRandom.nextIntLoop (bound : Int) : Nat → JavaUtilRandom → Option (JavaUtilRandom × Int)
  | 0, _ => none
  | fuel + 1, j =>
    let (j1, bits) := j.next 31
    let val := Int.tmod bits bound
    if toInt32 (u32 (bits - val + (bound - 1))) < 0 then
      JavaUtilRandom.nextIntLoop bound fuel j1
    else some (j1, val)

/-- Documented `nextInt(int bound)` for `bound > 0`: the power-of-two
shortcut `(int)((bound * (long)next(31)) >> 31)`, otherwise the rejection
loop. -/
def JavaUtilRandom.nextInt (fuel : Nat) (j : JavaUtilRandom) (bound : Int) :
    Option (JavaUtilRandom × Int) :=
  if and32 bound (toInt32 (u32 (-bound))) = bound then
    let (j1, r) := j.next 31
    some (j1, toInt32 (u64 (sar (toInt64 (u64 (bound * r))) 31)))
  else JavaUtilRandom.nextIntLoop bound fuel j

/-! ## The PNG codec handles -/

/-- A byte (`uint8_t`, `png_byte`). -/
abbrev Byte := Nat

/-- The header that `png_set_IHDR` stores in the libpng structs. -/
structure Ihdr where
  width : Int
  height : Int
  rgba : Bool
  deriving DecidableEq

/-- The library calls with an outside effect that `open` and `close` make. -/
inductive Action
  | png_write_info (hdr : Ihdr)
  | png_write_end
  | png_destroy_write_struct
  | png_destroy_read_struct
  | free_row_pointers
  | fclose (fp : Nat)
  deriving DecidableEq

/-- The outcome of the library calls that can fail while a file is opened,
per file name: the stream `fopen` returns (`none` is a null `FILE*`) and
whether `png_create_write_struct` / `png_create_read_struct`,
`png_create_info_struct` (and, for a reader, the second
`png_create_info_struct`) return a non-null pointer; and, per width and
height, whether libpng accepts the header in `png_set_IHDR` (it raises an
error for a dimension that is zero, above `2 ^ 31 - 1` or above its user
limit). -/
structure FileEnv where
  fopen : String → Option Nat
  create_struct : String → Bool
  create_info : String → Bool
  create_end_info : String → Bool
  set_IHDR : Int → Int → Bool

/-- The class `PngWriter`.  `png` and `info` say whether the pointer is
non-null, `ihdr` is the header held by the libpng structs, and
`row_pointers` is `some` of the array contents while it points to a live
`malloc`ed array (`none` for `nullptr` and for a freed array). -/
structure PngWriter where
  fn : String
  fp : Option Nat
  png : Bool
  info : Bool
  ihdr : Option Ihdr
  row_pointers : Option (List Nat)
  openFlag : Bool
  deriving DecidableEq

/-- The constructor `PngWriter()`. -/
def PngWriter.new : PngWriter :=
  { fn := "", fp := none, png := false, info := false, ihdr := none,
    row_pointers := none, openFlag := false }

/-- The method `PngWriter::open`: status, new object and the actions made.
When libpng rejects the header, `png_set_IHDR` raises a libpng error, the
`setjmp` branch is entered and `abort()` ends the run: the result is `none`. -/
def PngWriter.open (env : FileEnv) (w : PngWriter) (width height numRowPointers : Int)
    (rgbaFlag : Bool) : Option (Int × PngWriter × List Action) :=
  match env.fopen w.fn with
  | none => some (-1, { w with fp := none }, [])
  | some f =>
    if env.create_struct w.fn = false then
      some (-2, { w with fp := some f, png := false, ihdr := none }, [Action.fclose f])
    else if env.create_info w.fn = false then
      some (-2, { w with fp := some f, png := true, info := false, ihdr := none },
        [Action.fclose f])
    else if env.set_IHDR width height = false then none
    else
      let hdr : Ihdr := { width := width, height := height, rgba := rgbaFlag }
      some (0, { w with fp := some f, png := true, info := true, ihdr := some hdr,
                        row_pointers :=
                          if numRowPointers < 0 then none
                          else some (List.replicate numRowPointers.toNat 0),
                        openFlag := true },
        [Action.png_write_info hdr])

/-- The method `PngWriter::init`. -/
def PngWriter.init (env : FileEnv) (w : PngWriter) (xfn : String)
    (width height numRowPointers : Int) (rgbaFlag : Bool) :
    Option (Int × PngWriter × List Action) :=
  PngWriter.open env { w with fn := xfn } width height numRowPointers rgbaFlag

/-- The method `PngWriter::close`. -/
def PngWriter.close (w : PngWriter) : Int × PngWriter × List Action :=
  match w.fp, w.openFlag with
  | some f, true =>
    (0, { w with png := false, info := false, ihdr := none, row_pointers := none,
                 fp := none, openFlag := false },
      [Action.png_write_end, Action.png_destroy_write_struct, Action.free_row_pointers,
       Action.fclose f])
  | _, _ => (0, { w with openFlag := false }, [])

/-- The class `PngReader`; `end_info` is not set by the constructor. -/
structure PngReader where
  fn : String
  fp : Option Nat
  png : Bool
  info : Bool
  end_info : Bool
  row_pointers : Bool
  openFlag : Bool
  deriving DecidableEq

/-- The constructor `PngReader()`; `end_info` is the indeterminate value of
the member the constructor leaves unset. -/
def PngReader.new (end_info : Bool) : PngReader :=
  { fn := "", fp := none, png := false, info := false, end_info := end_info,
    row_pointers := false, openFlag := false }

/-- The method `PngReader::open`.  The `setjmp` branch (status `-5`) is
entered only from a later libpng error and is not part of the embedding. -/
def PngReader.open (env : FileEnv) (r : PngReader) : Int × PngReader × List Action :=
  match env.fopen r.fn with
  | none => (-1, { r with fp := none }, [])
  | some f =>
    if env.create_struct r.fn = false then
      (-2, { r with fp := some f, png := false }, [Action.fclose f])
    else if env.create_info r.fn = false then
      (-3, { r with fp := some f, png := false, info := false },
        [Action.fclose f, Action.png_destroy_read_struct])
    else if env.create_end_info r.fn = false then
      (-4, { r with fp := some f, png := false, info := false, end_info := false },
        [Action.fclose f, Action.png_destroy_read_struct])
    else
      (0, { r with fp := some f, png := true, info := true, end_info := true,
                   openFlag := true }, [])

/-- The method `PngReader::init`. -/
def PngReader.init (env : FileEnv) (r : PngReader) (xfn : String) :
    Int × PngReader × List Action :=
  PngReader.open env { r with fn := xfn }

/-- The method `PngReader::close`. -/
def PngReader.close (r : PngReader) : Int × PngReader × List Action :=
  match r.fp, r.openFlag with
  | some f, true =>
    (0, { r with png := false, info := false, end_info := false, fp := none,
                 openFlag := false },
      [Action.png_destroy_read_struct, Action.fclose f])
  | _, _ => (0, { r with openFlag := false }, [])

/-- The `n`-fold repetition of `close()` on a writer: the final object and
all actions made, in order. -/
def PngWriter.closeN : Nat → PngWriter → PngWriter × List Action
  | 0, w => (w, [])
  | n + 1, w =>
    let r := PngWriter.close w
    let rest := PngWriter.closeN n r.2.1
    (rest.1, r.2.2 ++ rest.2)

/-- The `n`-fold repetition of `close()` on a reader. -/
def PngReader.closeN : Nat → PngReader → PngReader × List Action
  | 0, r => (r, [])
  | n + 1, r =>
    let c := PngReader.close r
    let rest := PngReader.closeN n c.2.1
    (rest.1, c.2.2 ++ rest.2)

/-- The value of an `int` expression: undefined (signed overflow) outside
the 32-bit range. -/
def checkInt (x : Int) : Option Int :=
  if -2147483648 ≤ x ∧ x ≤ 2147483647 then some x else none

/-- C `a * b` on `int`. -/
def imul (a b : Int) : Option Int := checkInt (a * b)

/-- C `a + b` on `int`. -/
def iadd (a b : Int) : Option Int := checkInt (a + b)

/-- What a `PngReader` reports after `read`: `getWidth()`, `getHeight()` (a
PNG dimension is a 31-bit unsigned number, and libpng reports 0 for null
structs), whether `getColorType()` is `PNG_COLOR_TYPE_RGB_ALPHA`, and the
byte `row_pointers[sy][off]` of the decoded raster. -/
structure PngSource where
  width : Nat
  height : Nat
  rgba : Bool
  rows : Nat → Nat → Byte
  width_le : width ≤ 2147483647
  height_le : height ≤ 2147483647

/-- What the accessors of a reader report when its libpng structs are null:
`png_get_image_width`, `png_get_image_height` and `png_get_color_type` give 0. -/
def emptySource : PngSource :=
  { width := 0, height := 0, rgba := false, rows := fun _ _ => 0,
    width_le := by decide, height_le := by decide }

/-- The method `PngReader::read`, with what the accessors report after it.
`decode fn` is the raster libpng decodes from the file (`none` when the
file is not a PNG image: libpng then leaves `png_read_png` by `longjmp`).
With a null `png` or `info`, `png_read_png` and `png_get_rows` do nothing and
`row_pointers` becomes null. -/
def PngReader.read (decode : String → Option PngSource) (r : PngReader) :
    Option (Int × PngReader × PngSource) :=
  if r.png = true ∧ r.info = true then
    match decode r.fn with
    | none => none
    | some img => some (0, { r with row_pointers := true }, img)
  else some (0, { r with row_pointers := false }, emptySource)

/-- The class `PngTiler`. -/
structure PngTiler where
  filename : String
  tileWidth : Int
  tileHeight : Int
  dirOutput : String

/-- The surroundings of a `doTile` call: the raster libpng decodes from a
file, the outcome of opening files, `mybasename` (declared in this header,
defined elsewhere), the indeterminate initial contents `junk i off` of the
buffers made by `new uint8_t[...]` and the indeterminate initial value of
`PngReader::end_info`. -/
structure TilerEnv where
  decode : String → Option PngSource
  files : FileEnv
  mybasename : String → String
  junk : Nat → Nat → Byte
  end_info : Bool

/-- The calls `doTile` makes on its tile writers.  `init` records the
arguments of `pngOut[i].init(...)`, the status it returned and its actions;
`write_image` records `png_write_image(pngOut[i].png, pngOut[i].row_pointers)`
on a live `png`: the header of that writer, the row pointers (offsets into
`buf[i]`) and the raster libpng reads through them, `height` rows of
`width * channels` bytes, laid out flat in row-major order; `close` records
`pngOut[i].close()` with its actions. -/
inductive Event
  | init (i : Nat) (fname : String) (width height numRowPointers : Int) (rgbaFlag : Bool)
      (code : Int) (acts : List Action)
  | write_image (i : Nat) (fn : String) (hdr : Ihdr) (row_pointers : List Nat)
      (image : List Byte)
  | close (i : Nat) (acts : List Action)
  deriving DecidableEq

/-- The loop `for (int i = 0; i < n; i++) body(i)` over a state, where a
round may leave defined behaviour. -/
def forLoop {σ : Type} : Nat → (Nat → σ → Option σ) → σ → Option σ
  | 0, _, s => some s
  | n + 1, body, s => (forLoop n body s).bind (body n)

/-- C `a / b` on `int`: truncating, undefined for `b = 0`. -/
def cdiv (a b : Int) : Option Int := if b = 0 then none else some (Int.tdiv a b)

/-- C `a % b` on `int`: truncating, undefined for `b = 0`. -/
def cmod (a b : Int) : Option Int := if b = 0 then none else some (Int.tmod a b)

/-- The expression `(int)ceil((double)srcW / (double)tileWidth)`: the
ceiling of the exact quotient (for 32-bit operands the rounding of the
`double` division does not change the ceiling); the conversion of an
infinity or a NaN (`tileWidth = 0`) is undefined. -/
def ceilDiv (a b : Int) : Option Int :=
  if b = 0 then none else some (-(Int.fdiv (-a) b))

/-- The text `sprintf` produces for `"%s/%s.%d.%d.png"` with `dirOutput`,
`mybasename(filename)`, `tileCounterY`, `i`. -/
def tileName (dirOutput base : String) (tileCounterY i : Nat) : String :=
  dirOutput ++ "/" ++ base ++ "." ++ toString tileCounterY ++ "." ++ toString i ++ ".png"

/-- The call `sprintf(tmpstring, ...)` into `char tmpstring[256]`: the text
and its terminating zero must fit the 256 bytes, a longer text is written
past the array. -/
def sprintf256 (text : String) : Option String :=
  if text.utf8ByteSize < 256 then some text else none

/-- The state of the loops of `doTile`: the array `pngOut`, the buffers
`buf[i][off]`, `initPngFlag`, `tileCounterY`, and the calls made so far. -/
structure TileState where
  pngOut : Nat → PngWriter
  buf : Nat → Nat → Byte
  initPngFlag : Bool
  tileCounterY : Nat
  trace : List Event

/-- The call `memset(&buf[0], 0, n)`. -/
def memset0 (b : Nat → Byte) (n : Nat) : Nat → Byte :=
  fun off => if off < n then 0 else b off

/-- The call `memcpy(&dst[d], &src[s], n)`. -/
def memcpy (dst : Nat → Byte) (d : Nat) (src : Nat → Byte) (s n : Nat) : Nat → Byte :=
  fun off => if d ≤ off ∧ off < d + n then src (s + (off - d)) else dst off

/-- The store `row_pointers[ty] = &buf[i][off]`; undefined unless
`row_pointers` is a live array with more than `ty` entries. -/
def storeRowPointer (w : PngWriter) (ty off : Nat) : Option PngWriter :=
  match w.row_pointers with
  | none => none
  | some l => if ty < l.length then some { w with row_pointers := some (l.set ty off) } else none

/-- The raster libpng reads in `png_write_image`: `height` rows of
`rowbytes` bytes, row `ty` starting at `row_pointers[ty]`. -/
def readImage (b : Nat → Byte) (row_pointers : List Nat) (height rowbytes : Nat) : List Byte :=
  (List.range (height * rowbytes)).map
    (fun o => b (row_pointers.getD (o / rowbytes) 0 + o % rowbytes))

/-- The bytes per pixel `bpp` chosen from the colour type. -/
def bppOf (rgbaFlag : Bool) : Nat := if rgbaFlag then 4 else 3

/-- The `int` expression `tileWidth * tileHeight * bpp` (the size of a tile
buffer, and of its `memset`). -/
def tileBytes (t : PngTiler) (bpp : Int) : Option Int :=
  (imul t.tileWidth t.tileHeight).bind fun p => imul p bpp

/-- The `int` expression `ty*tileWidth * bpp` (the offset of row `ty`). -/
def rowOffset (t : PngTiler) (bpp : Int) (ty : Int) : Option Int :=
  (imul ty t.tileWidth).bind fun p => imul p bpp

/-- The `int` expression `((tileOffsetY * tileWidth) + tileOffsetX) * bpp`. -/
def pixelOffset (t : PngTiler) (bpp : Int) (tileOffsetY tileOffsetX : Int) : Option Int :=
  ((imul tileOffsetY t.tileWidth).bind fun p => iadd p tileOffsetX).bind fun q => imul q bpp

/-- The body of `for (int i=0; i < numPngW; i++)` under
`if ( ! initPngFlag )`: name the tile, `init` the writer (its status is not
read), clear the buffer, set the row pointers.  A negative `int` count
reaches `memset` as a huge `size_t`, and `&buf[i][off]` must point into the
buffer of `tileWidth * tileHeight * bpp` bytes (or just past it). -/
def initTile (t : PngTiler) (env : TilerEnv) (rgbaFlag : Bool) (i : Nat) (s : TileState) :
    Option TileState :=
  let bpp : Int := bppOf rgbaFlag
  match sprintf256 (tileName t.dirOutput (env.mybasename t.filename) s.tileCounterY i) with
  | none => none
  | some fname =>
    match PngWriter.init env.files (s.pngOut i) fname t.tileWidth t.tileHeight t.tileHeight
        rgbaFlag with
    | none => none
    | some r =>
      match tileBytes t bpp with
      | none => none
      | some size =>
        if size < 0 then none
        else
          let b := memset0 (s.buf i) size.toNat
          match forLoop t.tileHeight.toNat
              (fun ty w => (rowOffset t bpp ty).bind fun off =>
                if 0 ≤ off ∧ off ≤ size then storeRowPointer w ty off.toNat else none)
              r.2.1 with
          | none => none
          | some w =>
            some { s with pngOut := Function.update s.pngOut i w,
                          buf := Function.update s.buf i b,
                          trace := s.trace ++ [Event.init i fname t.tileWidth t.tileHeight
                            t.tileHeight rgbaFlag r.1 r.2.2] }

/-- The body of the loops that write the tiles of a band:
`png_write_image(pngOut[i].png, pngOut[i].row_pointers); pngOut[i].close();`.
libpng returns at once from `png_write_image` when `png` is null; with a
live `png` it reads `height` row pointers, which is undefined unless
`row_pointers` is a live array that long. -/
def writeTile (i : Nat) (s : TileState) : Option TileState :=
  let w := s.pngOut i
  let written : Option (List Event) :=
    if w.png = false then some []
    else
      match w.ihdr, w.row_pointers with
      | some hdr, some ptrs =>
        if hdr.height.toNat ≤ ptrs.length then
          some [Event.write_image i w.fn hdr ptrs
            (readImage (s.buf i) ptrs hdr.height.toNat (hdr.width.toNat * bppOf hdr.rgba))]
        else none
      | _, _ => none
  match written with
  | none => none
  | some evs =>
    let c := PngWriter.close w
    some { s with pngOut := Function.update s.pngOut i c.2.1,
                  trace := s.trace ++ evs ++ [Event.close i c.2.2] }

/-- The body of `for (int sx=0; sx < srcW; sx++)`: the `memcpy` of one
pixel from `&srcbuf[sx*bpp]`.  Undefined when `buf[tileCounterX]` is not one
of the `numPngW` buffers or the destination range leaves the buffer of
`tileWidth * tileHeight * bpp` bytes. -/
def scatterPixel (t : PngTiler) (src : PngSource) (numPngW : Nat) (sy : Nat)
    (tileOffsetY : Int) (sx : Nat) (s : TileState) : Option TileState :=
  let bpp : Int := bppOf src.rgba
  match cdiv sx t.tileWidth, cmod sx t.tileWidth with
  | some tileCounterX, some tileOffsetX =>
    match pixelOffset t bpp tileOffsetY tileOffsetX, imul sx bpp, tileBytes t bpp with
    | some dst, some srcOff, some size =>
      if 0 ≤ tileCounterX ∧ tileCounterX < numPngW ∧ 0 ≤ dst ∧ dst + bpp ≤ size then
        let b := memcpy (s.buf tileCounterX.toNat) dst.toNat (src.rows sy) srcOff.toNat
          (bppOf src.rgba)
        some { s with buf := Function.update s.buf tileCounterX.toNat b }
      else none
    | _, _, _ => none
  | _, _ => none

/-- The body of `for (int sy=0; sy < srcH; sy++)`. -/
def tileRow (t : PngTiler) (env : TilerEnv) (src : PngSource) (numPngW : Nat) (sy : Nat)
    (s : TileState) : Option TileState :=
  let opened : Option TileState :=
    if s.initPngFlag = false then
      (forLoop numPngW (initTile t env src.rgba) { s with initPngFlag := true }).map
        (fun s1 => { s1 with tileCounterY := s1.tileCounterY + 1 })
    else some s
  opened.bind fun s1 =>
  (cmod sy t.tileHeight).bind fun tileOffsetY =>
  (forLoop src.width (scatterPixel t src numPngW sy tileOffsetY) s1).bind fun s2 =>
  ((iadd sy 1).bind fun sy1 => cmod sy1 t.tileHeight).bind fun m =>
  if m = 0 then
    (forLoop numPngW writeTile s2).map (fun s3 => { s3 with initPngFlag := false })
  else some s2

/-- The part of `PngTiler::doTile` after the source has been read, for the
raster `pngSrc` the reader reports: the returned status and the calls made
on the tile writers.  `new PngWriter[numPngW]` and
`new uint8_t[tileWidth * tileHeight * bpp]` throw for a negative size. -/
def PngTiler.doTileFrom (t : PngTiler) (env : TilerEnv) (pngSrc : PngSource) :
    Option (Int × List Event) :=
  let srcW := pngSrc.width
  let srcH := pngSrc.height
  let bpp : Int := bppOf pngSrc.rgba
  match ceilDiv srcW t.tileWidth with
  | none => none
  | some n =>
    if n < 0 then none
    else
      let numPngW := n.toNat
      let allocated : Option Unit :=
        if numPngW = 0 then some ()
        else
          match tileBytes t bpp with
          | none => none
          | some size => if size < 0 then none else some ()
      match allocated with
      | none => none
      | some _ =>
        let s0 : TileState :=
          { pngOut := fun _ => PngWriter.new, buf := env.junk, initPngFlag := false,
            tileCounterY := 0, trace := [] }
        match forLoop srcH (tileRow t env pngSrc numPngW) s0 with
        | none => none
        | some s1 =>
          let final : Option TileState :=
            if s1.initPngFlag then forLoop numPngW writeTile s1 else some s1
          match final with
          | none => none
          | some s2 => some (0, s2.trace)

/-- The method `PngTiler::doTile`.  The status of `pngSrc.init(filename)` is
not read; `pngSrc.read()` follows whatever it was. -/
def PngTiler.doTile (t : PngTiler) (env : TilerEnv) : Option (Int × List Event) :=
  let pngSrc := PngReader.init env.files (PngReader.new env.end_info) t.filename
  match PngReader.read env.decode pngSrc.2.1 with
  | none => none
  | some r => t.doTileFrom env r.2.2

/-- The raster the reader of `doTile` reports after `init` and `read`. -/
def PngTiler.source (t : PngTiler) (env : TilerEnv) : Option PngSource :=
  (PngReader.read env.decode
    (PngReader.init env.files (PngReader.new env.end_info) t.filename).2.1).map fun r => r.2.2

/-! ## Closed forms

The description of what `doTile` produces on positive tile dimensions: the
grid, the contents of every tile and the sequence of calls.  These are the
right-hand sides of the theorems; they are not used by `doTile`. -/

/-- The number of tiles along one axis: the ceiling of `len / tile`. -/
def numTiles (len tile : Nat) : Nat := (len + tile - 1) / tile

/-- The name of the tile at `(tileRow, tileCol)`. -/
def PngTiler.nameOf (t : PngTiler) (env : TilerEnv) (tileRow tileCol : Nat) : String :=
  tileName t.dirOutput (env.mybasename t.filename) tileRow tileCol

/-- Does `PngWriter::open` get through all its library calls for this file
name and these dimensions? -/
def FileEnv.writerOk (fe : FileEnv) (fn : String) (width height : Int) : Bool :=
  (fe.fopen fn).isSome && fe.create_struct fn && fe.create_info fn && fe.set_IHDR width height

/-- The name of tile `(tileRow, tileCol)` fits `tmpstring[256]` and
`PngWriter::init` succeeds for it. -/
def PngTiler.tileOk (t : PngTiler) (env : TilerEnv) (tileRow tileCol : Nat) : Bool :=
  decide ((t.nameOf env tileRow tileCol).utf8ByteSize < 256) &&
    env.files.writerOk (t.nameOf env tileRow tileCol) t.tileWidth t.tileHeight

/-- The largest `int`. -/
def intMax : Nat := 2147483647

/-- The limits within which `doTile` handles the raster `src`: the `int`
expressions `tileWidth * tileHeight * bpp` and `srcW * bpp` do not overflow,
and for every tile of the grid the name is shorter than the 256 bytes of
`tmpstring` and `PngWriter::init` returns 0. -/
def PngTiler.withinLimits (t : PngTiler) (env : TilerEnv) (src : PngSource) : Prop :=
  t.tileWidth * t.tileHeight * (bppOf src.rgba : Int) ≤ 2147483647 ∧
  (src.width : Int) * (bppOf src.rgba : Int) ≤ 2147483647 ∧
  ∀ r c, r < numTiles src.height t.tileHeight.toNat →
    c < numTiles src.width t.tileWidth.toNat →
    (tileName t.dirOutput (env.mybasename t.filename) r c).utf8ByteSize < 256 ∧
    (PngWriter.init env.files PngWriter.new
      (tileName t.dirOutput (env.mybasename t.filename) r c)
      t.tileWidth t.tileHeight t.tileHeight src.rgba).map (fun r => r.1) = some 0

/-- The byte at offset `off` of tile `(r, c)` once the source rows below
`lim` have been scattered: pixel `p = off / bpp` of the tile lies at local
row `p / tw` and local column `p % tw`; it holds the source byte when the
source pixel exists, and zero otherwise. -/
def tileByte (src : PngSource) (tw th lim r c off : Nat) : Byte :=
  if r * th + off / bppOf src.rgba / tw < lim ∧ c * tw + off / bppOf src.rgba % tw < src.width then
    src.rows (r * th + off / bppOf src.rgba / tw)
      ((c * tw + off / bppOf src.rgba % tw) * bppOf src.rgba + off % bppOf src.rgba)
  else 0

/-- The raster of tile `(r, c)`: `th` rows of `tw` pixels. -/
def tileImage (src : PngSource) (tw th r c : Nat) : List Byte :=
  (List.range (th * (tw * bppOf src.rgba))).map (tileByte src tw th src.height r c)

/-- The row pointers of a tile: row `ty` starts at `ty * tw * bpp`. -/
def rowPointers (tw th bpp : Nat) : List Nat :=
  (List.range th).map (fun ty => ty * tw * bpp)

/-- The stream `fopen` returned for a file name (0 when it returned null). -/
def FileEnv.stream (fe : FileEnv) (fn : String) : Nat := (fe.fopen fn).getD 0

/-- The header of every tile. -/
def tileHdr (tw th : Nat) (rgba : Bool) : Ihdr := { width := tw, height := th, rgba := rgba }

/-- The `init` calls of band `r`, one per tile column. -/
def bandInits (t : PngTiler) (env : TilerEnv) (src : PngSource) (tw th r : Nat) : List Event :=
  (List.range (numTiles src.width tw)).map fun c =>
    Event.init c (t.nameOf env r c) tw th th src.rgba 0
      [Action.png_write_info (tileHdr tw th src.rgba)]

/-- The `png_write_image` and `close` calls of band `r`, per tile column. -/
def bandWrites (t : PngTiler) (env : TilerEnv) (src : PngSource) (tw th r : Nat) : List Event :=
  (List.range (numTiles src.width tw)).flatMap fun c =>
    [Event.write_image c (t.nameOf env r c) (tileHdr tw th src.rgba)
       (rowPointers tw th (bppOf src.rgba)) (tileImage src tw th r c),
     Event.close c [Action.png_write_end, Action.png_destroy_write_struct,
       Action.free_row_pointers, Action.fclose (env.files.stream (t.nameOf env r c))]]

/-- All calls of a run: band after band, the `init` calls and then the
writes. -/
def tileTrace (t : PngTiler) (env : TilerEnv) (src : PngSource) (tw th : Nat) : List Event :=
  (List.range (numTiles src.height th)).flatMap fun r =>
    bandInits t env src tw th r ++ bandWrites t env src tw th r

/-- The buffers after the first `n` pixels of source row `sy` (local row
`oy`) have been copied on top of `b`. -/
def scatterRowBuf (src : PngSource) (tw sy oy n : Nat) (b : Nat → Nat → Byte) :
    Nat → Nat → Byte :=
  fun c off =>
    if off / bppOf src.rgba / tw = oy ∧ c * tw + off / bppOf src.rgba % tw < n then
      src.rows sy ((c * tw + off / bppOf src.rgba % tw) * bppOf src.rgba + off % bppOf src.rgba)
    else b c off

/-- The writer object right after a successful `init` and the row pointer
stores of `doTile`. -/
def openedWriter (fe : FileEnv) (fn : String) (tw th : Nat) (rgba : Bool) : PngWriter :=
  { fn := fn, fp := some (fe.stream fn), png := true, info := true,
    ihdr := some (tileHdr tw th rgba), row_pointers := some (rowPointers tw th (bppOf rgba)),
    openFlag := true }

/-- The writer object after `close` on `openedWriter`. -/
def closedWriter (fn : String) : PngWriter :=
  { fn := fn, fp := none, png := false, info := false, ihdr := none, row_pointers := none,
    openFlag := false }

/-- The calls made once `sy` source rows have been processed: the complete
bands, and the `init` calls of the band in progress. -/
def traceUpTo (t : PngTiler) (env : TilerEnv) (src : PngSource) (tw th sy : Nat) : List Event :=
  ((List.range (sy / th)).flatMap fun r =>
    bandInits t env src tw th r ++ bandWrites t env src tw th r)
  ++ (if sy % th = 0 then [] else bandInits t env src tw th (sy / th))

/-- The tiles of band `r` are open and their buffers hold the source rows
below `lim`. -/
def BandOpen (t : PngTiler) (env : TilerEnv) (src : PngSource) (tw th r lim : Nat)
    (s : TileState) : Prop :=
  (∀ i, i < numTiles src.width tw →
    s.pngOut i = openedWriter env.files (t.nameOf env r i) tw th src.rgba) ∧
  (∀ c off, c < numTiles src.width tw → off < tw * th * bppOf src.rgba →
    s.buf c off = tileByte src tw th lim r c off)

/-- The invariant of the row loop of `doTile` before source row `sy`. -/
def RowInv (t : PngTiler) (env : TilerEnv) (src : PngSource) (tw th sy : Nat)
    (s : TileState) : Prop :=
  s.trace = traceUpTo t env src tw th sy ∧
  s.initPngFlag = decide (sy % th ≠ 0) ∧
  s.tileCounterY = numTiles sy th ∧
  (sy % th ≠ 0 → BandOpen t env src tw th (sy / th) sy s) ∧
  (sy % th = 0 → ∀ i, i < numTiles src.width tw → (s.pngOut i).row_pointers = none) ∧
  (∀ r c, r < numTiles sy th → c < numTiles src.width tw → t.tileOk env r c = true)

/-- The state of the row loop after the `if ( ! initPngFlag )` block of
source row `sy`. -/
def MidInv (t : PngTiler) (env : TilerEnv) (src : PngSource) (tw th sy : Nat)
    (s : TileState) : Prop :=
  s.trace = ((List.range (sy / th)).flatMap fun r =>
      bandInits t env src tw th r ++ bandWrites t env src tw th r)
    ++ bandInits t env src tw th (sy / th) ∧
  s.initPngFlag = true ∧
  s.tileCounterY = sy / th + 1 ∧
  BandOpen t env src tw th (sy / th) sy s

/-- The number that a list of decimal digit characters denotes, continuing
from the value `a` of the digits already read. -/
def decVal (a : Nat) : List Char → Nat
  | [] => a
  | c :: l => decVal (a * 10 + (c.toNat - 48)) l

/-- Is the call an `init` of a tile writer? -/
def Event.isInit : Event → Bool
  | Event.init _ _ _ _ _ _ _ _ => true
  | _ => false

/-- Is the call a `png_write_image`? -/
def Event.isWrite : Event → Bool
  | Event.write_image _ _ _ _ _ => true
  | _ => false

/-- Is the call a `close` of a tile writer? -/
def Event.isClose : Event → Bool
  | Event.close _ _ => true
  | _ => false

/-- The index pairs `(tileRow, tileCol)` of a grid, row by row. -/
def gridPairs (numRows numCols : Nat) : List (Nat × Nat) :=
  (List.range numRows).flatMap fun r => (List.range numCols).map fun c => (r, c)

/-! ## Worked examples

The example of the specification: a 5 x 5 RGB source and 3 x 3 tiles; and
runs in which a file does not open or a size leaves the `int` range. -/

/-- A 5 x 5 RGB raster; the byte at row `sy`, offset `off` is `16 * sy + off + 1`. -/
def exampleSource : PngSource :=
  { width := 5, height := 5, rgba := false, rows := fun sy off => 16 * sy + off + 1,
    width_le := by decide, height_le := by decide }

/-- Every file opens, and libpng accepts a header whose dimensions are
positive and within its default user limit of 1000000. -/
def exampleFiles : FileEnv :=
  { fopen := fun _ => some 1, create_struct := fun _ => true, create_info := fun _ => true,
    create_end_info := fun _ => true,
    set_IHDR := fun w h => decide (0 < w ∧ w ≤ 1000000 ∧ 0 < h ∧ h ≤ 1000000) }

/-- The surroundings of the example run: every file decodes to
`exampleSource`, fresh buffers hold the byte 255. -/
def exampleEnv : TilerEnv :=
  { decode := fun _ => some exampleSource, files := exampleFiles, mybasename := fun s => s,
    junk := fun _ _ => 255, end_info := false }

/-- The tiler of the example: `PngTiler("map.png", 3, 3, "tiles")`. -/
def exampleTiler : PngTiler :=
  { filename := "map.png", tileWidth := 3, tileHeight := 3, dirOutput := "tiles" }

/-- The surroundings of a run whose source file `map.png` does not open
(`fopen` fails in `PngReader::open`); the output files open. -/
def failedSourceEnv : TilerEnv :=
  { exampleEnv with
    files := { exampleFiles with fopen := fun fn => if fn = "map.png" then none else some 1 } }

/-- The surroundings of a run in which the source opens and no output file
can be opened. -/
def noOutputEnv : TilerEnv :=
  { exampleEnv with
    files := { exampleFiles with fopen := fun fn => if fn = "map.png" then some 1 else none } }

/-- A tiler whose `tileWidth * tileHeight * 3` leaves the `int` range. -/
def hugeTiler : PngTiler :=
  { filename := "map.png", tileWidth := 715827883, tileHeight := 1, dirOutput := "tiles" }

/-- A tiler whose `tileWidth * tileHeight` leaves the `int` range; a 32-bit
machine computes 196608 for `tileWidth * tileHeight * 3`. -/
def wrapTiler : PngTiler :=
  { filename := "map.png", tileWidth := 65536, tileHeight := 65537, dirOutput := "tiles" }

/-- A tiler whose output directory has a name of 300 bytes. -/
def longNameTiler : PngTiler :=
  { filename := "map.png", tileWidth := 3, tileHeight := 3,
    dirOutput := String.mk (List.replicate 300 'd') }

/-- A tiler with `tileHeight = 0`. -/
def flatTiler : PngTiler :=
  { filename := "map.png", tileWidth := 3, tileHeight := 0, dirOutput := "tiles" }

/-! ## Facts about the machine-integer helpers -/

theorem toInt32_of_lt (n : Nat) (h : n < 2147483648) : toInt32 n = n := by
  unfold toInt32
  have hm : n % 4294967296 = n := Nat.mod_eq_of_lt (by omega)
  rw [hm, if_pos h]

theorem u32_natCast (n : Nat) (h : n < 4294967296) : u32 (n : Int) = n := by
  unfold u32; omega

theorem and32_mask (c : Int) (m : Nat) (hm : m < 2147483648) :
    and32 c (m : Int) = ((u32 c &&& m : Nat) : Int) := by
  unfold and32
  rw [u32_natCast m (by omega), toInt32_of_lt]
  exact lt_of_le_of_lt Nat.and_le_right hm

theorem and_shift16 (u : Nat) : (u &&& 0xFF0000) / 65536 = (u / 65536) % 256 := by
  have h1 : (0xFF0000 : Nat) = (2 ^ 8 - 1) <<< 16 := by decide
  have h2 : (65536 : Nat) = 2 ^ 16 := by decide
  have h3 : (256 : Nat) = 2 ^ 8 := by decide
  apply Nat.eq_of_testBit_eq
  intro i
  rw [h1, h2, h3, ← Nat.shiftRight_eq_div_pow, ← Nat.shiftRight_eq_div_pow,
    Nat.testBit_mod_two_pow, Nat.testBit_shiftRight,
    Nat.testBit_shiftRight, Nat.testBit_and, Nat.testBit_shiftLeft, Nat.testBit_two_pow_sub_one]
  by_cases h : i < 8 <;> simp [h, Bool.and_comm]

theorem and_shift8 (u : Nat) : (u &&& 0xFF00) / 256 = (u / 256) % 256 := by
  have h1 : (0xFF00 : Nat) = (2 ^ 8 - 1) <<< 8 := by decide
  have h3 : (256 : Nat) = 2 ^ 8 := by decide
  apply Nat.eq_of_testBit_eq
  intro i
  rw [h1, h3, ← Nat.shiftRight_eq_div_pow, ← Nat.shiftRight_eq_div_pow,
    Nat.testBit_mod_two_pow, Nat.testBit_shiftRight,
    Nat.testBit_shiftRight, Nat.testBit_and, Nat.testBit_shiftLeft, Nat.testBit_two_pow_sub_one]
  by_cases h : i < 8 <;> simp [h, Bool.and_comm]

theorem or_pack (r g b : Nat) (hg : g < 256) (hb : b < 256) :
    (r <<< 16) ||| (g <<< 8) ||| b = r * 65536 + g * 256 + b := by
  have e1 : g <<< 8 ||| b = g * 256 + b := by
    rw [Nat.shiftLeft_eq, Nat.mul_comm g, ← Nat.mul_add_lt_is_or (by simpa using hb) g]
  rw [Nat.or_assoc, e1, Nat.shiftLeft_eq, Nat.mul_comm r,
    ← Nat.mul_add_lt_is_or (by simp; omega) r]
  omega

theorem calc_r (c : Int) : sar (and32 c 0xFF0000) 16 = c / 65536 % 256 := by
  have h := and32_mask c 0xFF0000 (by decide)
  simp only [Nat.cast_ofNat] at h
  rw [h]; unfold sar
  have h2 := and_shift16 (u32 c)
  unfold u32 at *
  omega

theorem calc_g (c : Int) : sar (and32 c 0xFF00) 8 = c / 256 % 256 := by
  have h := and32_mask c 0xFF00 (by decide)
  simp only [Nat.cast_ofNat] at h
  rw [h]; unfold sar
  have h2 := and_shift8 (u32 c)
  unfold u32 at *
  omega

theorem calc_b (c : Int) : and32 c 0xFF = c % 256 := by
  have h := and32_mask c 0xFF (by decide)
  simp only [Nat.cast_ofNat] at h
  rw [h]
  have h2 := Nat.and_pow_two_sub_one_eq_mod (u32 c) 8
  simp only [Nat.reducePow, Nat.add_one_sub_one] at h2
  rw [h2]
  unfold u32
  omega

theorem and32_low24 (c : Int) : and32 c 0xFFFFFF = c % 16777216 := by
  have h := and32_mask c 0xFFFFFF (by decide)
  simp only [Nat.cast_ofNat] at h
  rw [h]
  have h2 := Nat.and_pow_two_sub_one_eq_mod (u32 c) 24
  simp only [Nat.reducePow, Nat.add_one_sub_one] at h2
  rw [h2]
  unfold u32
  omega

theorem pack_channels (r g b : Int) (hr0 : 0 ≤ r) (hr : r ≤ 255) (hg0 : 0 ≤ g) (hg : g ≤ 255)
    (hb0 : 0 ≤ b) (hb : b ≤ 255) :
    or32 (or32 (shl32 r 16) (shl32 g 8)) b = r * 65536 + g * 256 + b := by
  obtain ⟨r, rfl⟩ := Int.eq_ofNat_of_zero_le hr0
  obtain ⟨g, rfl⟩ := Int.eq_ofNat_of_zero_le hg0
  obtain ⟨b, rfl⟩ := Int.eq_ofNat_of_zero_le hb0
  have hr' : r < 256 := by omega
  have hg' : g < 256 := by omega
  have hb' : b < 256 := by omega
  have s1 : shl32 (r : Int) 16 = ((r <<< 16 : Nat) : Int) := by
    unfold shl32
    rw [u32_natCast r (by omega), toInt32_of_lt]
    rw [Nat.shiftLeft_eq]; omega
  have s2 : shl32 (g : Int) 8 = ((g <<< 8 : Nat) : Int) := by
    unfold shl32
    rw [u32_natCast g (by omega), toInt32_of_lt]
    rw [Nat.shiftLeft_eq]; omega
  have p1 := or_pack r g 0 hg' (by omega)
  have p2 := or_pack r g b hg' hb'
  rw [Nat.or_zero, Nat.add_zero] at p1
  have o1 : or32 (shl32 (r : Int) 16) (shl32 (g : Int) 8) = ((r <<< 16 ||| g <<< 8 : Nat) : Int) := by
    rw [s1, s2]; unfold or32
    rw [u32_natCast _ (by rw [Nat.shiftLeft_eq]; omega),
      u32_natCast _ (by rw [Nat.shiftLeft_eq]; omega), toInt32_of_lt]
    rw [p1]; omega
  rw [o1]; unfold or32
  rw [u32_natCast _ (by rw [p1]; omega), u32_natCast b (by omega), toInt32_of_lt _ (by rw [p2]; omega),
    p2]
  push_cast; ring

/-! ## ColorInfo -/

/-- C8: for every `int32_t` colour `c` (negative values included) the
constructor `ColorInfo(n, c)`, through `calcHSL`, leaves channels `r`, `g`, `b`
in `[0, 255]` that are bits 16..23, 8..15 and 0..7 of `c`, with
`(r << 16) | (g << 8) | b == c & 0xFFFFFF`, and leaves `color` equal to `c`;
`calcHSL` returns 0. -/
theorem calcHSL_channels {α : Type} (rgb2hsb : Int → Int → Int → α) (uninit : ColorInfo α)
    (n : String) (c : Int) :
    let ci := ColorInfo.new rgb2hsb uninit n c
    (0 ≤ ci.r ∧ ci.r ≤ 255) ∧ (0 ≤ ci.g ∧ ci.g ≤ 255) ∧ (0 ≤ ci.b ∧ ci.b ≤ 255) ∧
    or32 (or32 (shl32 ci.r 16) (shl32 ci.g 8)) ci.b = and32 c 0xFFFFFF ∧
    ci.r = c / 65536 % 256 ∧ ci.g = c / 256 % 256 ∧ ci.b = c % 256 ∧
    and32 c 0xFFFFFF = c % 16777216 ∧
    ci.color = c ∧ ci.name = n ∧
    (ColorInfo.calcHSL rgb2hsb { uninit with name := n, color := c }).1 = 0 := by
  intro ci
  have hr : ci.r = c / 65536 % 256 := calc_r c
  have hg : ci.g = c / 256 % 256 := calc_g c
  have hb : ci.b = c % 256 := calc_b c
  have h24 := and32_low24 c
  have hr0 : 0 ≤ ci.r ∧ ci.r ≤ 255 := by omega
  have hg0 : 0 ≤ ci.g ∧ ci.g ≤ 255 := by omega
  have hb0 : 0 ≤ ci.b ∧ ci.b ≤ 255 := by omega
  refine ⟨hr0, hg0, hb0, ?_, hr, hg, hb, h24, rfl, rfl, rfl⟩
  rw [pack_channels _ _ _ hr0.1 hr0.2 hg0.1 hg0.2 hb0.1 hb0.2, h24, hr, hg, hb]
  omega

/-! ## JavaRandom -/

theorem toInt64_u64_of_range (x : Int) (h0 : 0 ≤ x) (h1 : x < 9223372036854775808) :
    toInt64 (u64 x) = x := by
  unfold toInt64 u64
  have e : (x % 18446744073709551616).toNat % 18446744073709551616 = x.toNat := by omega
  rw [e]
  split <;> omega

theorem toInt32_u64_of_range (x : Int) (h0 : 0 ≤ x) (h1 : x < 2147483648) :
    toInt32 (u64 x) = x := by
  unfold toInt32 u64
  have e : (x % 18446744073709551616).toNat % 4294967296 = x.toNat := by omega
  rw [e]
  split <;> omega

theorem toInt32_u32_of_range (x : Int) (h0 : 0 ≤ x) (h1 : x < 2147483648) :
    toInt32 (u32 x) = x := by
  unfold toInt32 u32
  have e : (x % 4294967296).toNat % 4294967296 = x.toNat := by omega
  rw [e]
  split <;> omega

/-- The draw `next(31)` is defined and lies in `[0, 2^31)`. -/
theorem next31_range (j : JavaRandom) :
    ∃ j1 bits, j.next 31 = some (j1, bits) ∧ 0 ≤ bits ∧ bits < 2147483648 := by
  unfold JavaRandom.next
  simp only []
  rw [if_pos (by decide)]
  refine ⟨_, _, rfl, ?_⟩
  generalize u64 (toInt64 (u64 (toInt64 (u64 (j.seed * 0x5DEECE66D)) + 0xB))) = x
  have hB : x &&& seedMask ≤ seedMask := Nat.and_le_right
  have hm : seedMask = 281474976710655 := rfl
  generalize x &&& seedMask = B at *
  have e1 : toInt64 B = (B : Int) := by
    unfold toInt64
    have : B % 18446744073709551616 = B := by omega
    rw [this, if_pos (by omega)]
  have e2 : u64 (B : Int) = B := by unfold u64; omega
  have e3 : (48 - 31 : Int).toNat = 17 := by decide
  rw [e1, e2, e3, Nat.shiftRight_eq_div_pow]
  have hq : B / 2 ^ 17 < 2147483648 := by
    rw [Nat.div_lt_iff_lt_mul (by decide)]; omega
  generalize B / 2 ^ 17 = q at *
  have e4 : toInt64 q = (q : Int) := by
    unfold toInt64
    have : q % 18446744073709551616 = q := by omega
    rw [this, if_pos (by omega)]
  rw [e4, toInt32_u64_of_range _ (by omega) (by omega)]
  omega

/-- For every bound in `(0, 2^31)` the loop of `JavaRandom::nextInt` accepts
its first draw: the 64-bit test `bits - val + (bound - 1) < 0` is never
true, so no draw is ever rejected. -/
theorem nextIntLoop_accepts_first_draw (j : JavaRandom) (bound : Int) (fuel : Nat)
    (hb0 : 0 < bound) (hb : bound < 2147483648) :
    ∃ j1 bits, j.next 31 = some (j1, bits) ∧
      JavaRandom.nextIntLoop bound (fuel + 1) j = some (j1, bits % bound) := by
  obtain ⟨j1, bits, hnext, h0, h1⟩ := next31_range j
  refine ⟨j1, bits, hnext, ?_⟩
  unfold JavaRandom.nextIntLoop
  rw [hnext]
  simp only []
  rw [if_neg (by omega)]
  have hmod : Int.tmod bits bound = bits % bound := Int.tmod_eq_emod h0 (le_of_lt hb0)
  have hm0 : 0 ≤ bits % bound := Int.emod_nonneg _ (by omega)
  have hm1 : bits % bound < bound := Int.emod_lt_of_pos _ hb0
  have hm2 : bits % bound ≤ bits := by
    have e := Int.emod_add_ediv bits bound
    have q0 : 0 ≤ bound * (bits / bound) :=
      Int.mul_nonneg (le_of_lt hb0) (Int.ediv_nonneg h0 (le_of_lt hb0))
    omega
  rw [hmod, toInt32_u64_of_range _ hm0 (by omega),
    toInt32_u32_of_range _ (by omega) (by omega),
    toInt64_u64_of_range (bound - 1) (by omega) (by omega),
    toInt64_u64_of_range _ (by omega) (by omega), if_neg (by omega)]

/-- C9 (code at the failing input): with seed 42 and bound `2^30 + 1` the
first draw is `bits = 1562431130`, `val = 488689305`.  The test
`bits - val + (bound - 1) < 0` of `java.util.Random.nextInt` is evaluated in
32-bit `int` arithmetic, wraps to a negative value and rejects the draw;
`JavaRandom::nextInt` evaluates it in 64 bits (`bound` is `int64_t`), finds
`2147483649` and accepts.  So the code returns `488689305` after one draw,
whereas the documented algorithm draws again and returns `117392763`, with
another seed left behind. -/
theorem nextInt_differs_from_java_util_random :
    (JavaRandom.setSeed ⟨0⟩ 42).next 31 = some (⟨204790973191750⟩, 1562431130) ∧
    Int.tmod 1562431130 1073741825 = 488689305 ∧
    toInt32 (u32 (1562431130 - 488689305 + (1073741825 - 1))) < 0 ∧
    ¬ (toInt64 (u64 (toInt32 (u32 (1562431130 - 488689305))
        + toInt64 (u64 (1073741825 - 1)))) < 0) ∧
    (JavaRandom.setSeed ⟨0⟩ 42).nextInt 5 1073741825
      = some (⟨204790973191750⟩, 488689305) ∧
    (JavaUtilRandom.setSeed 42).nextInt 5 1073741825
      = some (⟨15386904305625⟩, 117392763) ∧
    ((JavaRandom.setSeed ⟨0⟩ 42).nextInt 5 1073741825).map (fun p => (p.1.seed, p.2)) ≠
      ((JavaUtilRandom.setSeed 42).nextInt 5 1073741825).map
        (fun p => ((p.1.seed : Int), p.2)) := by
  have hdraw : (JavaRandom.setSeed ⟨0⟩ 42).next 31
      = some (⟨204790973191750⟩, 1562431130) := by decide
  have hcode : (JavaRandom.setSeed ⟨0⟩ 42).nextInt 5 1073741825
      = some (⟨204790973191750⟩, 488689305) := by decide
  have hjava : (JavaUtilRandom.setSeed 42).nextInt 5 1073741825
      = some (⟨15386904305625⟩, 117392763) := by decide
  refine ⟨hdraw, by decide, by decide, by decide, hcode, hjava, ?_⟩
  rw [hcode, hjava]
  decide

/-! ## close -/

theorem cdiv_natCast (a b : Nat) (hb : 0 < b) :
    cdiv (a : Int) (b : Int) = some ((a / b : Nat) : Int) := by
  unfold cdiv
  rw [if_neg (by omega), Int.ofNat_tdiv]

theorem cmod_natCast (a b : Nat) (hb : 0 < b) :
    cmod (a : Int) (b : Int) = some ((a % b : Nat) : Int) := by
  unfold cmod
  rw [if_neg (by omega), Int.ofNat_tmod]

theorem ceilDiv_natCast (a b : Nat) (hb : 0 < b) :
    ceilDiv (a : Int) (b : Int) = some (((a + b - 1) / b : Nat) : Int) := by
  unfold ceilDiv
  rw [if_neg (by omega), Int.fdiv_eq_ediv _ (by omega)]
  congr 1
  have hb' : (0 : Int) < b := by exact_mod_cast hb
  have key : (-(a : Int)) / (b : Int) = -(((a + b - 1) / b : Nat) : Int) ∧
      (-(a : Int)) % (b : Int) = ((((a + b - 1) / b) * b - a : Nat) : Int) := by
    rw [Int.ediv_emod_unique hb']
    have h1 := Nat.div_add_mod (a + b - 1) b
    have h2 := Nat.mod_lt (a + b - 1) hb
    have h3 : (a + b - 1) / b * b = b * ((a + b - 1) / b) := Nat.mul_comm _ _
    generalize (a + b - 1) / b = q at *
    generalize (a + b - 1) % b = m at *
    generalize hp : b * q = p at *
    have hp' : (b : Int) * (q : Int) = (p : Int) := by exact_mod_cast hp
    refine ⟨?_, ?_, ?_⟩
    · rw [h3, mul_neg, hp']; omega
    · omega
    · rw [h3]; omega
  rw [key.1]; simp

/-- The number of tile columns (rows) of a grid: the ceiling of `a / b`. -/
theorem div_lt_ceil (a b x : Nat) (hb : 0 < b) (hx : x < a) : x / b < (a + b - 1) / b := by
  rw [Nat.div_lt_iff_lt_mul hb]
  have h1 := Nat.div_add_mod (a + b - 1) b
  have h2 := Nat.mod_lt (a + b - 1) hb
  have h3 : (a + b - 1) / b * b = b * ((a + b - 1) / b) := Nat.mul_comm _ _
  omega

theorem pixel_offset_bound (tw th bpp oy ox : Nat) (hoy : oy < th) (hox : ox < tw) :
    (oy * tw + ox) * bpp + bpp ≤ tw * th * bpp := by
  have h1 : oy * tw + ox + 1 ≤ th * tw := by
    have : (oy + 1) * tw ≤ th * tw := Nat.mul_le_mul_right tw hoy
    rw [Nat.add_mul, Nat.one_mul] at this
    omega
  have h2 : (oy * tw + ox + 1) * bpp ≤ th * tw * bpp := Nat.mul_le_mul_right bpp h1
  rw [Nat.add_mul, Nat.one_mul] at h2
  rw [Nat.mul_comm tw th]
  exact h2

/-! ## Checked `int` arithmetic -/

theorem checkInt_natCast (n : Nat) (h : n ≤ intMax) : checkInt (n : Int) = some (n : Int) := by
  unfold checkInt
  unfold intMax at h
  rw [if_pos (by omega)]

theorem checkInt_eq_some (x y : Int) (h : checkInt x = some y) :
    y = x ∧ -2147483648 ≤ x ∧ x ≤ 2147483647 := by
  unfold checkInt at h
  split at h
  · next hr => cases h; exact ⟨rfl, hr⟩
  · cases h

theorem imul_natCast (a b : Nat) (h : a * b ≤ intMax) :
    imul (a : Int) (b : Int) = some ((a * b : Nat) : Int) := by
  unfold imul
  rw [← Nat.cast_mul]
  exact checkInt_natCast _ h

theorem iadd_natCast (a b : Nat) (h : a + b ≤ intMax) :
    iadd (a : Int) (b : Int) = some ((a + b : Nat) : Int) := by
  unfold iadd
  rw [← Nat.cast_add]
  exact checkInt_natCast _ h

theorem imul_natCast_eq_some (a b : Nat) (y : Int) (h : imul (a : Int) (b : Int) = some y) :
    y = ((a * b : Nat) : Int) ∧ a * b ≤ intMax := by
  unfold imul at h
  obtain ⟨h1, _, h3⟩ := checkInt_eq_some _ _ h
  rw [← Nat.cast_mul] at h1 h3
  refine ⟨h1, ?_⟩
  unfold intMax
  omega

theorem bppOf_pos (rgba : Bool) : 0 < bppOf rgba := by
  cases rgba <;> decide

theorem tileBytes_natCast (t : PngTiler) (tw th bpp : Nat) (htw : t.tileWidth = tw)
    (hth : t.tileHeight = th) (hb : 0 < bpp) (hS : tw * th * bpp ≤ intMax) :
    tileBytes t (bpp : Int) = some ((tw * th * bpp : Nat) : Int) := by
  unfold tileBytes
  have h1 : tw * th ≤ intMax := le_trans (Nat.le_mul_of_pos_right _ hb) hS
  rw [htw, hth, imul_natCast tw th h1, Option.some_bind, imul_natCast _ _ hS]

theorem tileBytes_eq_some (t : PngTiler) (tw th bpp : Nat) (size : Int)
    (htw : t.tileWidth = tw) (hth : t.tileHeight = th)
    (h : tileBytes t (bpp : Int) = some size) :
    size = ((tw * th * bpp : Nat) : Int) ∧ tw * th * bpp ≤ intMax := by
  unfold tileBytes at h
  rw [htw, hth, Option.bind_eq_some] at h
  obtain ⟨p, h1, h2⟩ := h
  obtain ⟨e1, _⟩ := imul_natCast_eq_some _ _ _ h1
  rw [e1] at h2
  exact imul_natCast_eq_some _ _ _ h2

theorem rowOffset_natCast (t : PngTiler) (tw th bpp ty : Nat) (htw : t.tileWidth = tw)
    (hb : 0 < bpp) (hS : tw * th * bpp ≤ intMax) (hty : ty < th) :
    rowOffset t (bpp : Int) (ty : Int) = some ((ty * tw * bpp : Nat) : Int) := by
  unfold rowOffset
  have h0 : ty * tw ≤ tw * th := by
    rw [Nat.mul_comm tw th]; exact Nat.mul_le_mul_right tw (le_of_lt hty)
  have h2 : ty * tw * bpp ≤ intMax := le_trans (Nat.mul_le_mul_right bpp h0) hS
  have h1 : ty * tw ≤ intMax := le_trans (Nat.le_mul_of_pos_right _ hb) h2
  rw [htw, imul_natCast ty tw h1, Option.some_bind, imul_natCast _ _ h2]

theorem pixelOffset_natCast (t : PngTiler) (tw th bpp oy ox : Nat) (htw : t.tileWidth = tw)
    (hb : 0 < bpp) (hS : tw * th * bpp ≤ intMax) (hoy : oy < th) (hox : ox < tw) :
    pixelOffset t (bpp : Int) (oy : Int) (ox : Int)
      = some (((oy * tw + ox) * bpp : Nat) : Int) := by
  unfold pixelOffset
  have hbound := pixel_offset_bound tw th bpp oy ox hoy hox
  have h3 : (oy * tw + ox) * bpp ≤ intMax := by omega
  have h2 : oy * tw + ox ≤ intMax := le_trans (Nat.le_mul_of_pos_right _ hb) h3
  have h1 : oy * tw ≤ intMax := by omega
  rw [htw, imul_natCast oy tw h1, Option.some_bind, iadd_natCast _ _ h2, Option.some_bind,
    imul_natCast _ _ h3]

/-! ## Loops -/

theorem forLoop_succ {σ : Type} (n : Nat) (body : Nat → σ → Option σ) (s : σ) :
    forLoop (n + 1) body s = (forLoop n body s).bind (body n) := rfl

/-- A loop whose state after `i` rounds is `f i`. -/
theorem forLoop_eq_of_steps {σ : Type} (n : Nat) (body : Nat → σ → Option σ) (f : Nat → σ)
    (hstep : ∀ i, i < n → body i (f i) = some (f (i + 1))) :
    forLoop n body (f 0) = some (f n) := by
  induction n with
  | zero => rfl
  | succ n ih =>
    rw [forLoop_succ, ih (fun i hi => hstep i (Nat.lt_succ_of_lt hi))]
    exact hstep n (Nat.lt_succ_self n)

/-- A loop that keeps an invariant indexed by the round. -/
theorem forLoop_invariant {σ : Type} (n : Nat) (body : Nat → σ → Option σ)
    (Inv : Nat → σ → Prop) (s : σ) (h0 : Inv 0 s)
    (hstep : ∀ i s, i < n → Inv i s → ∃ s', body i s = some s' ∧ Inv (i + 1) s') :
    ∃ s', forLoop n body s = some s' ∧ Inv n s' := by
  induction n with
  | zero => exact ⟨s, rfl, h0⟩
  | succ n ih =>
    obtain ⟨s1, h1, hi1⟩ := ih (fun i s hi => hstep i s (Nat.lt_succ_of_lt hi))
    obtain ⟨s2, h2, hi2⟩ := hstep n s1 (Nat.lt_succ_self n) hi1
    exact ⟨s2, by rw [forLoop_succ, h1]; exact h2, hi2⟩

/-- A loop with no round: nothing changes provided it is defined. -/
theorem forLoop_zero {σ : Type} (body : Nat → σ → Option σ) (s : σ) :
    forLoop 0 body s = some s := rfl

/-! ## Row pointers -/

theorem storeRowPointers_loop (w : PngWriter) (th : Nat) (offs : Nat → Nat)
    (hw : w.row_pointers = some (List.replicate th 0)) :
    forLoop th (fun ty w => storeRowPointer w ty (offs ty)) w
      = some { w with row_pointers := some ((List.range th).map offs) } := by
  have key : ∀ n, n ≤ th →
      forLoop n (fun ty w => storeRowPointer w ty (offs ty)) w
        = some { w with
            row_pointers := some ((List.range n).map offs ++ List.replicate (th - n) 0) } := by
    intro n
    induction n with
    | zero =>
      intro _
      rw [forLoop_zero]
      simp [← hw]
    | succ n ih =>
      intro hn
      rw [forLoop_succ, ih (by omega)]
      rw [Option.some_bind]
      simp only [storeRowPointer]
      have hlen : n < ((List.range n).map offs ++ List.replicate (th - n) 0).length := by
        simp; omega
      rw [if_pos hlen]
      congr 2
      have hrep : List.replicate (th - n) 0 = 0 :: List.replicate (th - (n + 1)) 0 := by
        have : th - n = (th - (n + 1)) + 1 := by omega
        rw [this, List.replicate_succ]
      have hl : ((List.range n).map offs).length = n := by simp
      rw [hrep, List.range_succ, List.map_append, List.append_assoc]
      conv => lhs; rw [List.set_append_right _ _ (by rw [hl])]
      simp [hl]
  have := key th (Nat.le_refl th)
  simpa using this

theorem forLoop_congr {σ : Type} (n : Nat) (f g : Nat → σ → Option σ)
    (h : ∀ i s, i < n → f i s = g i s) (s : σ) : forLoop n f s = forLoop n g s := by
  induction n with
  | zero => rfl
  | succ n ih =>
    rw [forLoop_succ, forLoop_succ, ih (fun i s hi => h i s (Nat.lt_succ_of_lt hi))]
    cases forLoop n g s with
    | none => rfl
    | some a => exact h n a (Nat.lt_succ_self n)

/-- Partial correctness of a loop: an invariant kept by every round that
returns holds after the loop, when the loop returns. -/
theorem forLoop_partial {σ : Type} (n : Nat) (body : Nat → σ → Option σ)
    (Inv : Nat → σ → Prop)
    (hstep : ∀ i a b, i < n → Inv i a → body i a = some b → Inv (i + 1) b)
    (s s' : σ) (h0 : Inv 0 s) (h : forLoop n body s = some s') : Inv n s' := by
  induction n generalizing s' with
  | zero =>
    rw [forLoop_zero] at h
    cases h; exact h0
  | succ n ih =>
    rw [forLoop_succ, Option.bind_eq_some] at h
    obtain ⟨a, h1, h2⟩ := h
    exact hstep n a s' (Nat.lt_succ_self n)
      (ih (fun i a b hi => hstep i a b (Nat.lt_succ_of_lt hi)) a h1) h2

theorem forLoop_preserves {σ : Type} (P : σ → Prop) (body : Nat → σ → Option σ)
    (hbody : ∀ i s s', body i s = some s' → P s → P s') :
    ∀ (n : Nat) (s s' : σ), forLoop n body s = some s' → P s → P s' := by
  intro n s s' h hp
  exact forLoop_partial n body (fun _ x => P x) (fun i a b _ ha hb => hbody i a b hb ha) s s' hp h

theorem forLoop_none_of_body_none {σ : Type} (body : Nat → σ → Option σ)
    (hbody : ∀ i s, body i s = none) (n : Nat) (hn : 0 < n) (s : σ) :
    forLoop n body s = none := by
  cases n with
  | zero => omega
  | succ n =>
    rw [forLoop_succ]
    cases forLoop n body s with
    | none => rfl
    | some s1 => exact hbody n s1

theorem forLoop_none_of_first {σ : Type} (body : Nat → σ → Option σ) (s : σ)
    (h : body 0 s = none) (n : Nat) (hn : 0 < n) : forLoop n body s = none := by
  induction n with
  | zero => omega
  | succ n ih =>
    rw [forLoop_succ]
    cases n with
    | zero => rw [forLoop_zero, Option.some_bind]; exact h
    | succ m => rw [ih (Nat.succ_pos m)]; rfl

theorem storeRowPointers_checked (t : PngTiler) (tw th bpp : Nat) (w : PngWriter)
    (htw : t.tileWidth = tw) (hb : 0 < bpp) (hS : tw * th * bpp ≤ intMax)
    (hw : w.row_pointers = some (List.replicate th 0)) :
    forLoop th
      (fun ty w => (rowOffset t (bpp : Int) (ty : Int)).bind fun off =>
        if 0 ≤ off ∧ off ≤ ((tw * th * bpp : Nat) : Int) then storeRowPointer w ty off.toNat
        else none) w
      = some { w with row_pointers := some ((List.range th).map fun ty => ty * tw * bpp) } := by
  rw [forLoop_congr th _ (fun ty w => storeRowPointer w ty (ty * tw * bpp))]
  · exact storeRowPointers_loop w th (fun ty => ty * tw * bpp) hw
  · intro ty a hty
    have h0 : ty * tw * bpp ≤ tw * th * bpp := by
      apply Nat.mul_le_mul_right
      rw [Nat.mul_comm tw th]
      exact Nat.mul_le_mul_right tw (le_of_lt hty)
    have hg : (0 : Int) ≤ ((ty * tw * bpp : Nat) : Int) ∧
        ((ty * tw * bpp : Nat) : Int) ≤ ((tw * th * bpp : Nat) : Int) :=
      ⟨Int.ofNat_nonneg _, by exact_mod_cast h0⟩
    simp only [rowOffset_natCast t tw th bpp ty htw hb hS hty, Option.some_bind,
      Int.toNat_natCast]
    rw [if_pos hg]

theorem storeRowPointers_none (t : PngTiler) (bpp size : Int) (w : PngWriter) (n : Nat)
    (hn : 0 < n) (hw : w.row_pointers = none) :
    forLoop n
      (fun ty w => (rowOffset t bpp (ty : Int)).bind fun off =>
        if 0 ≤ off ∧ off ≤ size then storeRowPointer w ty off.toNat else none) w = none := by
  apply forLoop_none_of_first _ _ _ n hn
  cases rowOffset t bpp ((0 : Nat) : Int) with
  | none => rfl
  | some off =>
    show (if 0 ≤ off ∧ off ≤ size then storeRowPointer w 0 off.toNat else none) = none
    split
    · unfold storeRowPointer
      rw [hw]
    · rfl

/-! ## Opening the tiles of a band -/

theorem PngWriter.init_of_writerOk (fe : FileEnv) (w : PngWriter) (fn : String) (tw th : Nat)
    (rgba : Bool) (hok : fe.writerOk fn tw th = true) :
    PngWriter.init fe w fn tw th th rgba
      = some (0,
          { openedWriter fe fn tw th rgba with row_pointers := some (List.replicate th 0) },
          [Action.png_write_info (tileHdr tw th rgba)]) := by
  unfold FileEnv.writerOk at hok
  simp only [Bool.and_eq_true] at hok
  obtain ⟨⟨⟨h1, h2⟩, h3⟩, h4⟩ := hok
  obtain ⟨f, hf⟩ := Option.isSome_iff_exists.mp h1
  have hneg : ¬ ((th : Int) < 0) := by omega
  simp [PngWriter.init, PngWriter.open, hf, h2, h3, h4, openedWriter, FileEnv.stream, tileHdr,
    hneg]

/-- A `PngWriter::init` that returns a failure leaves `row_pointers` as it
was. -/
theorem PngWriter.init_of_not_writerOk (fe : FileEnv) (w : PngWriter) (fn : String)
    (width height n : Int) (rgba : Bool) (r : Int × PngWriter × List Action)
    (h : PngWriter.init fe w fn width height n rgba = some r)
    (hok : fe.writerOk fn width height = false) :
    r.2.1.row_pointers = w.row_pointers := by
  unfold PngWriter.init PngWriter.open at h
  unfold FileEnv.writerOk at hok
  simp only [] at h
  cases hf : fe.fopen fn with
  | none =>
    rw [hf] at h
    cases h
    rfl
  | some f =>
    rw [hf] at h
    simp only [] at h
    cases h1 : fe.create_struct fn with
    | false =>
      simp only [h1, if_true] at h
      cases h
      rfl
    | true =>
      cases h2 : fe.create_info fn with
      | false =>
        simp only [h1, h2, if_true, Bool.true_eq_false, if_false] at h
        cases h
        rfl
      | true =>
        cases h3 : fe.set_IHDR width height with
        | false =>
          simp only [h1, h2, h3, if_true, Bool.true_eq_false, if_false] at h
          cases h
        | true => simp [hf, h1, h2, h3] at hok

theorem tileOk_iff (t : PngTiler) (env : TilerEnv) (r c : Nat) :
    t.tileOk env r c = true ↔
      (t.nameOf env r c).utf8ByteSize < 256 ∧
        env.files.writerOk (t.nameOf env r c) t.tileWidth t.tileHeight = true := by
  unfold PngTiler.tileOk
  simp

/-- One round of the loop that opens the tiles of a band, when the name
fits and the writer opens. -/
theorem initTile_of_tileOk (t : PngTiler) (env : TilerEnv) (tw th : Nat) (rgba : Bool)
    (htw : t.tileWidth = tw) (hth : t.tileHeight = th)
    (hS : tw * th * bppOf rgba ≤ intMax) (i : Nat) (s : TileState)
    (hok : t.tileOk env s.tileCounterY i = true) :
    initTile t env rgba i s = some
      { s with
        pngOut := Function.update s.pngOut i
          (openedWriter env.files (t.nameOf env s.tileCounterY i) tw th rgba)
        buf := Function.update s.buf i (memset0 (s.buf i) (tw * th * bppOf rgba))
        trace := s.trace ++ [Event.init i (t.nameOf env s.tileCounterY i) tw th th rgba 0
            [Action.png_write_info (tileHdr tw th rgba)]] } := by
  obtain ⟨hfit, hwok⟩ := (tileOk_iff t env _ _).mp hok
  have hb := bppOf_pos rgba
  have hnm : tileName t.dirOutput (env.mybasename t.filename) s.tileCounterY i
      = t.nameOf env s.tileCounterY i := rfl
  rw [htw, hth] at hwok
  unfold initTile
  simp only [hnm, sprintf256, hfit, if_true]
  rw [tileBytes_natCast t tw th (bppOf rgba) htw hth hb hS]
  simp only [hth, htw, Int.toNat_natCast]
  rw [PngWriter.init_of_writerOk env.files (s.pngOut i) _ tw th rgba hwok]
  simp only []
  rw [if_neg (Int.not_lt.mpr (Int.ofNat_nonneg _))]
  have hst := storeRowPointers_checked t tw th (bppOf rgba)
    { openedWriter env.files (t.nameOf env s.tileCounterY i) tw th rgba with
      row_pointers := some (List.replicate th 0) } htw hb hS rfl
  rw [hst]
  rfl

/-- The state after the first `n` tiles of a band have been opened. -/
theorem initTile_loop (t : PngTiler) (env : TilerEnv) (tw th : Nat) (rgba : Bool)
    (htw : t.tileWidth = tw) (hth : t.tileHeight = th)
    (hS : tw * th * bppOf rgba ≤ intMax) (s : TileState) (n : Nat)
    (hok : ∀ c, c < n → t.tileOk env s.tileCounterY c = true) :
    forLoop n (initTile t env rgba) s = some
      { s with
        pngOut := fun i => if i < n then
            openedWriter env.files (t.nameOf env s.tileCounterY i) tw th rgba
          else s.pngOut i
        buf := fun i => if i < n then memset0 (s.buf i) (tw * th * bppOf rgba) else s.buf i
        trace := s.trace ++ (List.range n).map fun c =>
          Event.init c (t.nameOf env s.tileCounterY c) tw th th rgba 0
            [Action.png_write_info (tileHdr tw th rgba)] } := by
  induction n with
  | zero => simp [forLoop]
  | succ n ih =>
    rw [forLoop_succ, ih (fun c hc => hok c (Nat.lt_succ_of_lt hc)), Option.some_bind]
    refine (initTile_of_tileOk t env tw th rgba htw hth hS n _ ?_).trans ?_
    · exact hok n (Nat.lt_succ_self n)
    simp only [lt_self_iff_false, if_false, Option.some.injEq, TileState.mk.injEq, and_true,
      true_and]
    refine ⟨?_, ?_, ?_⟩
    · funext i
      by_cases h1 : i = n
      · subst h1; simp [Function.update]
      · have : (i < n + 1) ↔ i < n := by omega
        simp [Function.update, h1, this]
    · funext i
      by_cases h1 : i = n
      · subst h1; simp [Function.update]
      · have : (i < n + 1) ↔ i < n := by omega
        simp [Function.update, h1, this]
    · rw [List.range_succ, List.map_append]
      simp

/-- A round of the loop that opens the tiles returns only when the name
fits `tmpstring` and, for a positive `tileHeight` and a writer without a live
`row_pointers` array, `PngWriter::init` succeeded; it changes `pngOut[i]`,
`buf[i]` and the trace only. -/
theorem initTile_eq_some (t : PngTiler) (env : TilerEnv) (rgba : Bool) (i : Nat)
    (a b : TileState) (hth : 0 < t.tileHeight) (h : initTile t env rgba i a = some b)
    (hrow : (a.pngOut i).row_pointers = none) :
    t.tileOk env a.tileCounterY i = true ∧ b.tileCounterY = a.tileCounterY ∧
      ∀ j, j ≠ i → b.pngOut j = a.pngOut j := by
  have hnm : tileName t.dirOutput (env.mybasename t.filename) a.tileCounterY i
      = t.nameOf env a.tileCounterY i := rfl
  unfold initTile at h
  simp only [hnm, sprintf256] at h
  by_cases hfit : (t.nameOf env a.tileCounterY i).utf8ByteSize < 256
  · simp only [hfit, if_true] at h
    cases hinit : PngWriter.init env.files (a.pngOut i) (t.nameOf env a.tileCounterY i)
        t.tileWidth t.tileHeight t.tileHeight rgba with
    | none => rw [hinit] at h; cases h
    | some r =>
      rw [hinit] at h
      simp only [] at h
      cases hsz : tileBytes t ((bppOf rgba : Nat) : Int) with
      | none => rw [hsz] at h; cases h
      | some size =>
        rw [hsz] at h
        simp only [] at h
        by_cases hneg : size < 0
        · rw [if_pos hneg] at h; cases h
        rw [if_neg hneg] at h
        cases hwok : env.files.writerOk (t.nameOf env a.tileCounterY i) t.tileWidth
            t.tileHeight with
        | false =>
          have hrp := PngWriter.init_of_not_writerOk env.files (a.pngOut i)
            (t.nameOf env a.tileCounterY i) t.tileWidth t.tileHeight t.tileHeight rgba r hinit
            hwok
          rw [hrow] at hrp
          rw [storeRowPointers_none t _ _ _ t.tileHeight.toNat (by omega) hrp] at h
          cases h
        | true =>
          refine ⟨(tileOk_iff t env _ _).mpr ⟨hfit, hwok⟩, ?_⟩
          split at h
          · cases h
          · cases h
            refine ⟨rfl, ?_⟩
            intro j hj
            simp [Function.update, hj]
  · simp only [hfit, if_false] at h
    cases h

/-! ## Scattering one source row -/

theorem pixel_index (tw c x n : Nat) (htw : 0 < tw) (hx : x < tw) :
    c * tw + x = n ↔ c = n / tw ∧ x = n % tw := by
  constructor
  · intro h
    subst h
    constructor
    · rw [Nat.mul_comm, Nat.mul_add_div htw, Nat.div_eq_of_lt hx, Nat.add_zero]
    · rw [Nat.mul_comm, Nat.mul_add_mod, Nat.mod_eq_of_lt hx]
  · rintro ⟨h1, h2⟩
    subst h1 h2
    rw [Nat.mul_comm]
    exact Nat.div_add_mod n tw

theorem offset_split (bpp q off : Nat) (hb : 0 < bpp) :
    (q * bpp ≤ off ∧ off < q * bpp + bpp) ↔ off / bpp = q := by
  constructor
  · rintro ⟨h1, h2⟩
    apply Nat.div_eq_of_lt_le
    · rw [Nat.mul_comm] at h1; rwa [Nat.mul_comm]
    · have : (q + 1) * bpp = q * bpp + bpp := by rw [Nat.add_mul, Nat.one_mul]
      rw [this]; exact h2
  · intro h
    subst h
    have h1 := Nat.div_add_mod off bpp
    have h2 := Nat.mod_lt off hb
    rw [Nat.mul_comm] at h1
    omega

theorem scatterPixel_loop (t : PngTiler) (src : PngSource) (tw th : Nat) (htw0 : 0 < tw)
    (htw : t.tileWidth = tw) (hth : t.tileHeight = th)
    (hS : tw * th * bppOf src.rgba ≤ intMax)
    (hW : ∀ sx, sx < src.width → sx * bppOf src.rgba ≤ intMax)
    (sy oy : Nat) (hoy : oy < th)
    (s : TileState) (n : Nat) (hn : n ≤ src.width) :
    forLoop n (scatterPixel t src (numTiles src.width tw) sy oy) s
      = some { s with buf := scatterRowBuf src tw sy oy n s.buf } := by
  induction n with
  | zero =>
    rw [forLoop_zero]
    have h0 : scatterRowBuf src tw sy oy 0 s.buf = s.buf := by
      funext c off; simp [scatterRowBuf]
    rw [h0]
  | succ n ih =>
    rw [forLoop_succ, ih (by omega), Option.some_bind]
    have hb := bppOf_pos src.rgba
    have hWn := hW n (by omega)
    generalize hbpp : bppOf src.rgba = bpp at *
    have hmod : n % tw < tw := Nat.mod_lt n htw0
    unfold scatterPixel
    simp only [hbpp, htw, cdiv_natCast n tw htw0, cmod_natCast n tw htw0,
      pixelOffset_natCast t tw th bpp oy (n % tw) htw hb hS hoy hmod,
      imul_natCast n bpp hWn, tileBytes_natCast t tw th bpp htw hth hb hS]
    have hcol : n / tw < numTiles src.width tw := div_lt_ceil _ _ _ htw0 (by omega)
    have hbound := pixel_offset_bound tw th bpp oy (n % tw) hoy hmod
    have hguard : (0 : Int) ≤ ((n / tw : Nat) : Int) ∧
        ((n / tw : Nat) : Int) < ((numTiles src.width tw : Nat) : Int) ∧
        (0 : Int) ≤ (((oy * tw + n % tw) * bpp : Nat) : Int) ∧
        (((oy * tw + n % tw) * bpp : Nat) : Int) + (bpp : Int)
          ≤ ((tw * th * bpp : Nat) : Int) := by
      refine ⟨Int.ofNat_nonneg _, by exact_mod_cast hcol, Int.ofNat_nonneg _, ?_⟩
      exact_mod_cast hbound
    rw [if_pos hguard]
    simp only [Int.toNat_natCast, Option.some.injEq, TileState.mk.injEq, and_true, true_and]
    funext c off
    simp only [scatterRowBuf, hbpp, Function.update, memcpy, eq_rec_constant, dite_eq_ite]
    have hsplit := offset_split bpp (oy * tw + n % tw) off hb
    have hrow : ∀ q, q / tw = oy ∧ q % tw = n % tw ↔ q = oy * tw + n % tw := by
      intro q
      have := pixel_index tw oy (n % tw) q htw0 hmod
      constructor
      · rintro ⟨h1, h2⟩; exact (this.mpr ⟨h1.symm, h2.symm⟩).symm
      · intro h; have := this.mp h.symm; exact ⟨this.1.symm, this.2.symm⟩
    have hpix := pixel_index tw c (off / bpp % tw) n htw0 (Nat.mod_lt _ htw0)
    by_cases hc : c = n / tw
    · subst hc
      rw [if_pos rfl]
      simp only [memcpy, scatterRowBuf, hbpp]
      by_cases hin : (oy * tw + n % tw) * bpp ≤ off ∧ off < (oy * tw + n % tw) * bpp + bpp
      · rw [if_pos hin]
        have hq := hsplit.mp hin
        have hq2 := (hrow (off / bpp)).mpr hq
        have e1 : n / tw * tw + off / bpp % tw = n := by
          rw [hq2.2, Nat.mul_comm]; exact Nat.div_add_mod n tw
        rw [if_pos ⟨hq2.1, by omega⟩, e1]
        congr 1
        have h1 := Nat.div_add_mod off bpp
        rw [hq, Nat.mul_comm] at h1
        omega
      · rw [if_neg hin]
        have hne : ¬ (off / bpp / tw = oy ∧ off / bpp % tw = n % tw) := by
          intro h; exact hin (hsplit.mpr ((hrow _).mp h))
        by_cases hcond : off / bpp / tw = oy ∧ n / tw * tw + off / bpp % tw < n
        · have : off / bpp / tw = oy ∧ n / tw * tw + off / bpp % tw < n + 1 :=
            ⟨hcond.1, by omega⟩
          rw [if_pos hcond, if_pos this]
        · have : ¬ (off / bpp / tw = oy ∧ n / tw * tw + off / bpp % tw < n + 1) := by
            rintro ⟨h1, h2⟩
            by_cases h3 : n / tw * tw + off / bpp % tw = n
            · exact hne ⟨h1, (hpix.mp h3).2⟩
            · exact hcond ⟨h1, by omega⟩
          rw [if_neg hcond, if_neg this]
    · rw [if_neg hc]
      simp only [scatterRowBuf, hbpp]
      have hiff : c * tw + off / bpp % tw < n + 1 ↔ c * tw + off / bpp % tw < n := by
        constructor
        · intro h
          by_cases h3 : c * tw + off / bpp % tw = n
          · exact absurd (hpix.mp h3).1 hc
          · omega
        · intro h; omega
      simp only [hiff]

theorem scatterPixel_eq_some (t : PngTiler) (src : PngSource) (numPngW sy : Nat) (oy : Int)
    (sx : Nat) (a b : TileState) (h : scatterPixel t src numPngW sy oy sx a = some b) :
    sx * bppOf src.rgba ≤ intMax ∧ b.trace = a.trace ∧ b.initPngFlag = a.initPngFlag := by
  unfold scatterPixel at h
  split at h
  · simp only [] at h
    split at h
    · next dst srcOff size _ hoff _ =>
      split at h
      · cases h
        exact ⟨(imul_natCast_eq_some _ _ _ hoff).2, rfl, rfl⟩
      · cases h
    · cases h
  · cases h

theorem scatterPixel_loop_eq_some (t : PngTiler) (src : PngSource) (numPngW sy : Nat)
    (oy : Int) (n : Nat) (s s' : TileState)
    (h : forLoop n (scatterPixel t src numPngW sy oy) s = some s') :
    ∀ sx, sx < n → sx * bppOf src.rgba ≤ intMax :=
  forLoop_partial n _ (fun i _ => ∀ sx, sx < i → sx * bppOf src.rgba ≤ intMax)
    (fun i a b _ hinv hb sx hsx => by
      rcases Nat.lt_succ_iff_lt_or_eq.mp hsx with h1 | h1
      · exact hinv sx h1
      · rw [h1]; exact (scatterPixel_eq_some t src numPngW sy oy i a b hb).1)
    s s' (fun sx hsx => absurd hsx (Nat.not_lt_zero sx)) h

theorem initTile_loop_eq_some (t : PngTiler) (env : TilerEnv) (rgba : Bool)
    (hth : 0 < t.tileHeight) (n : Nat) (s s' : TileState)
    (hrow : ∀ i, i < n → (s.pngOut i).row_pointers = none)
    (h : forLoop n (initTile t env rgba) s = some s') :
    ∀ c, c < n → t.tileOk env s.tileCounterY c = true := by
  have key := forLoop_partial n (initTile t env rgba)
    (fun i a => a.tileCounterY = s.tileCounterY ∧ (∀ j, i ≤ j → a.pngOut j = s.pngOut j) ∧
      ∀ c, c < i → t.tileOk env s.tileCounterY c = true)
    (fun i a b hi hinv hb => by
      obtain ⟨h1, h2, h3⟩ := hinv
      have hr : (a.pngOut i).row_pointers = none := by
        rw [h2 i (Nat.le_refl i)]; exact hrow i hi
      obtain ⟨k1, k2, k3⟩ := initTile_eq_some t env rgba i a b hth hb hr
      refine ⟨k2.trans h1, ?_, ?_⟩
      · intro j hj
        rw [k3 j (by omega)]
        exact h2 j (by omega)
      · intro c hc
        rcases Nat.lt_succ_iff_lt_or_eq.mp hc with h4 | h4
        · exact h3 c h4
        · rw [h4, ← h1]; exact k1)
    s s' ⟨rfl, fun _ _ => rfl, fun c hc => absurd hc (Nat.not_lt_zero c)⟩ h
  exact key.2.2

/-! ## Writing the tiles of a band -/

theorem readImage_rowPointers (b : Nat → Byte) (tw th bpp : Nat) :
    readImage b (rowPointers tw th bpp) th (tw * bpp)
      = (List.range (th * (tw * bpp))).map b := by
  unfold readImage
  apply List.map_congr_left
  intro o ho
  rw [List.mem_range] at ho
  have hpos : 0 < tw * bpp := by
    rcases Nat.eq_zero_or_pos (tw * bpp) with h | h
    · rw [h] at ho; simp at ho
    · exact h
  have hrow : o / (tw * bpp) < th := by
    rw [Nat.div_lt_iff_lt_mul hpos]; exact ho
  have hget : (rowPointers tw th bpp).getD (o / (tw * bpp)) 0 = o / (tw * bpp) * tw * bpp := by
    unfold rowPointers
    rw [List.getD_eq_getElem?_getD, List.getElem?_map, List.getElem?_range hrow]
    rfl
  rw [hget, Nat.mul_assoc, Nat.mul_comm (o / (tw * bpp)), Nat.div_add_mod]

theorem PngWriter.close_openedWriter (fe : FileEnv) (fn : String) (tw th : Nat) (rgba : Bool) :
    PngWriter.close (openedWriter fe fn tw th rgba)
      = (0, closedWriter fn, [Action.png_write_end, Action.png_destroy_write_struct,
          Action.free_row_pointers, Action.fclose (fe.stream fn)]) := rfl

/-- The state after the first `n` tiles of an open band have been written
and closed. -/
theorem writeTile_loop (fe : FileEnv) (nm : Nat → String) (tw th : Nat) (rgba : Bool)
    (s : TileState) (n : Nat)
    (hopen : ∀ i, i < n → s.pngOut i = openedWriter fe (nm i) tw th rgba) :
    forLoop n writeTile s = some
      { s with
        pngOut := fun i => if i < n then closedWriter (nm i) else s.pngOut i
        trace := s.trace ++ (List.range n).flatMap fun c =>
          [Event.write_image c (nm c) (tileHdr tw th rgba) (rowPointers tw th (bppOf rgba))
             ((List.range (th * (tw * bppOf rgba))).map (s.buf c)),
           Event.close c [Action.png_write_end, Action.png_destroy_write_struct,
             Action.free_row_pointers, Action.fclose (fe.stream (nm c))]] } := by
  induction n with
  | zero => simp [forLoop]
  | succ n ih =>
    rw [forLoop_succ, ih (fun i hi => hopen i (Nat.lt_succ_of_lt hi)), Option.some_bind]
    unfold writeTile
    simp only [lt_self_iff_false, if_false, hopen n (Nat.lt_succ_self n)]
    have hlen : (rowPointers tw th (bppOf rgba)).length = th := by simp [rowPointers]
    simp only [openedWriter, tileHdr, Int.toNat_natCast, hlen, le_refl, if_true,
      Bool.true_eq_false, if_false]
    have hcl := PngWriter.close_openedWriter fe (nm n) tw th rgba
    simp only [openedWriter, tileHdr] at hcl
    rw [hcl, readImage_rowPointers]
    simp only [Option.some.injEq, TileState.mk.injEq, and_true, true_and]
    refine ⟨?_, ?_⟩
    · funext i
      by_cases h1 : i = n
      · subst h1; simp [Function.update]
      · have : (i < n + 1) ↔ i < n := by omega
        simp [Function.update, h1, this]
    · rw [List.range_succ, List.flatMap_append]
      simp [tileHdr]

/-! ## The row loop -/

theorem numTiles_eq (n th : Nat) (hth : 0 < th) :
    numTiles n th = if n % th = 0 then n / th else n / th + 1 := by
  unfold numTiles
  have h1 := Nat.div_add_mod n th
  have h2 := Nat.mod_lt n hth
  split
  · next h =>
    apply Nat.div_eq_of_lt_le
    · rw [Nat.mul_comm]; omega
    · rw [Nat.add_mul, Nat.mul_comm]; omega
  · next h =>
    apply Nat.div_eq_of_lt_le
    · rw [Nat.add_mul, Nat.mul_comm]; omega
    · rw [Nat.add_mul, Nat.add_mul, Nat.mul_comm]; omega

theorem tileByte_zero_of_band_start (src : PngSource) (tw th r c off : Nat) :
    tileByte src tw th (r * th) r c off = 0 := by
  unfold tileByte
  have h : ¬ (r * th + off / bppOf src.rgba / tw < r * th ∧
      c * tw + off / bppOf src.rgba % tw < src.width) := by
    intro h; exact absurd h.1 (Nat.not_lt.mpr (Nat.le_add_right _ _))
  rw [if_neg h]

theorem tileByte_succ (src : PngSource) (tw th sy c off : Nat) (hth : 0 < th) :
    tileByte src tw th (sy + 1) (sy / th) c off
      = scatterRowBuf src tw sy (sy % th) src.width
          (fun c off => tileByte src tw th sy (sy / th) c off) c off := by
  have h1 := Nat.div_add_mod sy th
  have h2 := Nat.mod_lt sy hth
  rw [Nat.mul_comm] at h1
  unfold scatterRowBuf tileByte
  beta_reduce
  generalize off / bppOf src.rgba / tw = ly
  generalize off / bppOf src.rgba % tw = lx
  by_cases hly : ly = sy % th
  · subst hly
    have e : sy / th * th + sy % th = sy := h1
    rw [e]
    by_cases hw : c * tw + lx < src.width
    · simp [hw]
    · simp [hw]
  · have hiff : sy / th * th + ly < sy + 1 ↔ sy / th * th + ly < sy := by omega
    simp only [hiff, hly, false_and, if_false]

theorem tileByte_full_band (src : PngSource) (tw th lim r c off : Nat) (htw : 0 < tw)
    (hlim : (r + 1) * th = lim) (hH : lim ≤ src.height)
    (hoff : off < th * (tw * bppOf src.rgba)) :
    tileByte src tw th lim r c off = tileByte src tw th src.height r c off := by
  have hb := bppOf_pos src.rgba
  have hly : off / bppOf src.rgba / tw < th := by
    rw [Nat.div_lt_iff_lt_mul htw, Nat.div_lt_iff_lt_mul hb]
    calc off < th * (tw * bppOf src.rgba) := hoff
      _ = th * tw * bppOf src.rgba := by rw [Nat.mul_assoc]
  unfold tileByte
  rw [Nat.add_mul, Nat.one_mul] at hlim
  have hiff : r * th + off / bppOf src.rgba / tw < lim
      ↔ r * th + off / bppOf src.rgba / tw < src.height := by omega
  simp only [hiff]

theorem tileRow_open (t : PngTiler) (env : TilerEnv) (src : PngSource) (tw th : Nat)
    (hth0 : 0 < th) (htw : t.tileWidth = tw) (hth : t.tileHeight = th)
    (hS : tw * th * bppOf src.rgba ≤ intMax)
    (sy : Nat) (s : TileState) (hinv : RowInv t env src tw th sy s)
    (hok : sy % th = 0 → ∀ c, c < numTiles src.width tw → t.tileOk env (sy / th) c = true) :
    ∃ s1, (if s.initPngFlag = false then
        (forLoop (numTiles src.width tw) (initTile t env src.rgba)
          { s with initPngFlag := true }).map
          (fun s1 => { s1 with tileCounterY := s1.tileCounterY + 1 })
      else some s) = some s1 ∧ MidInv t env src tw th sy s1 := by
  obtain ⟨htr, hflag, hcnt, hband, _, _⟩ := hinv
  by_cases hm : sy % th = 0
  · have hf : s.initPngFlag = false := by rw [hflag]; simp [hm]
    have hcnt' : s.tileCounterY = sy / th := by rw [hcnt, numTiles_eq _ _ hth0, if_pos hm]
    rw [if_pos hf]
    have hloop := initTile_loop t env tw th src.rgba htw hth hS { s with initPngFlag := true }
      (numTiles src.width tw) (by
        intro c hc
        show t.tileOk env s.tileCounterY c = true
        rw [hcnt']; exact hok hm c hc)
    rw [hloop]
    refine ⟨_, rfl, ?_, rfl, ?_, ?_, ?_⟩
    · show s.trace ++ _ = _
      rw [htr, hcnt']
      simp [traceUpTo, hm, bandInits]
    · show s.tileCounterY + 1 = _
      rw [hcnt']
    · intro i hi
      show (if i < numTiles src.width tw then _ else _) = _
      rw [if_pos hi]
      show openedWriter env.files (t.nameOf env s.tileCounterY i) tw th src.rgba = _
      rw [hcnt']
    · intro c off hc hoff
      show (if c < numTiles src.width tw then memset0 (s.buf c) (tw * th * bppOf src.rgba)
        else s.buf c) off = _
      rw [if_pos hc]
      have hsy' : sy = sy / th * th := by
        have := Nat.div_add_mod sy th
        rw [hm, Nat.add_zero, Nat.mul_comm] at this
        exact this.symm
      have hz := tileByte_zero_of_band_start src tw th (sy / th) c off
      rw [← hsy'] at hz
      rw [hz]
      simp [memset0, hoff]
  · have hf : ¬ (s.initPngFlag = false) := by rw [hflag]; simp [hm]
    rw [if_neg hf]
    refine ⟨s, rfl, ?_, ?_, ?_, hband hm⟩
    · rw [htr]; simp [traceUpTo, hm]
    · rw [hflag]; simp [hm]
    · rw [hcnt, numTiles_eq _ _ hth0, if_neg hm]

theorem scatterRowBuf_congr (src : PngSource) (tw sy oy n : Nat) (b b' : Nat → Nat → Byte)
    (c off : Nat) (h : b c off = b' c off) :
    scatterRowBuf src tw sy oy n b c off = scatterRowBuf src tw sy oy n b' c off := by
  unfold scatterRowBuf
  rw [h]

theorem succ_div_of_mod_eq_zero (sy th : Nat) (h : (sy + 1) % th = 0) :
    (sy + 1) / th = sy / th + 1 := by
  rw [Nat.succ_div, if_pos (Nat.dvd_of_mod_eq_zero h)]

theorem succ_div_of_mod_ne_zero (sy th : Nat) (h : (sy + 1) % th ≠ 0) :
    (sy + 1) / th = sy / th := by
  rw [Nat.succ_div, if_neg (fun hd => h (Nat.mod_eq_zero_of_dvd hd)), Nat.add_zero]

theorem bandWrites_of_buf (t : PngTiler) (env : TilerEnv) (src : PngSource) (tw th r lim : Nat)
    (s : TileState) (hband : BandOpen t env src tw th r lim s)
    (hlim : ∀ c off, off < th * (tw * bppOf src.rgba) →
      tileByte src tw th lim r c off = tileByte src tw th src.height r c off) :
    ((List.range (numTiles src.width tw)).flatMap fun c =>
      [Event.write_image c (t.nameOf env r c) (tileHdr tw th src.rgba)
         (rowPointers tw th (bppOf src.rgba))
         ((List.range (th * (tw * bppOf src.rgba))).map (s.buf c)),
       Event.close c [Action.png_write_end, Action.png_destroy_write_struct,
         Action.free_row_pointers, Action.fclose (env.files.stream (t.nameOf env r c))]])
      = bandWrites t env src tw th r := by
  unfold bandWrites
  apply List.flatMap_congr
  intro c hc
  rw [List.mem_range] at hc
  have himg : (List.range (th * (tw * bppOf src.rgba))).map (s.buf c) = tileImage src tw th r c := by
    unfold tileImage
    apply List.map_congr_left
    intro off hoff
    rw [List.mem_range] at hoff
    rw [hband.2 c off hc (by rw [Nat.mul_comm tw th, Nat.mul_assoc]; exact hoff)]
    exact hlim c off hoff
  rw [himg]

theorem tileRow_scatter_write (t : PngTiler) (env : TilerEnv) (src : PngSource) (tw th : Nat)
    (htw0 : 0 < tw) (hth0 : 0 < th) (htw : t.tileWidth = tw) (hth : t.tileHeight = th)
    (hS : tw * th * bppOf src.rgba ≤ intMax)
    (hW : ∀ sx, sx < src.width → sx * bppOf src.rgba ≤ intMax)
    (sy : Nat) (hsy : sy < src.height) (s1 : TileState)
    (hmid : MidInv t env src tw th sy s1)
    (hoks : ∀ r c, r < numTiles (sy + 1) th → c < numTiles src.width tw →
      t.tileOk env r c = true) :
    ∃ s', ((cmod sy t.tileHeight).bind fun tileOffsetY =>
        (forLoop src.width
          (scatterPixel t src (numTiles src.width tw) sy tileOffsetY) s1).bind fun s2 =>
        ((iadd sy 1).bind fun sy1 => cmod sy1 t.tileHeight).bind fun m =>
        if m = 0 then
          (forLoop (numTiles src.width tw) writeTile s2).map
            (fun s3 => { s3 with initPngFlag := false })
        else some s2) = some s' ∧ RowInv t env src tw th (sy + 1) s' := by
  obtain ⟨htr, hflag, hcnt, hband⟩ := hmid
  have hoy : sy % th < th := Nat.mod_lt sy hth0
  have hone : iadd (sy : Int) 1 = some ((sy + 1 : Nat) : Int) := by
    have hle := src.height_le
    have := iadd_natCast sy 1 (by unfold intMax; omega)
    simpa using this
  rw [hth, cmod_natCast sy th hth0, Option.some_bind,
    scatterPixel_loop t src tw th htw0 htw hth hS hW sy (sy % th) hoy s1 src.width
      (Nat.le_refl _),
    Option.some_bind, hone, Option.some_bind, cmod_natCast (sy + 1) th hth0, Option.some_bind]
  have hband2 : BandOpen t env src tw th (sy / th) (sy + 1)
      { s1 with buf := scatterRowBuf src tw sy (sy % th) src.width s1.buf } := by
    refine ⟨hband.1, ?_⟩
    intro c off hc hoff
    show scatterRowBuf src tw sy (sy % th) src.width s1.buf c off = _
    rw [tileByte_succ src tw th sy c off hth0]
    exact scatterRowBuf_congr _ _ _ _ _ _ _ _ _ (hband.2 c off hc hoff)
  by_cases hm : (sy + 1) % th = 0
  · have hm' : (((sy + 1) % th : Nat) : Int) = 0 := by exact_mod_cast hm
    rw [if_pos hm']
    have hdiv := succ_div_of_mod_eq_zero sy th hm
    have hfull : (sy / th + 1) * th = sy + 1 := by
      have := Nat.div_add_mod (sy + 1) th
      rw [hm, Nat.add_zero, hdiv, Nat.mul_comm] at this
      exact this
    rw [writeTile_loop env.files (t.nameOf env (sy / th)) tw th src.rgba _
      (numTiles src.width tw) hband2.1]
    refine ⟨_, rfl, ?_, ?_, ?_, ?_, ?_, hoks⟩
    · show s1.trace ++ _ = _
      rw [bandWrites_of_buf t env src tw th (sy / th) (sy + 1) _ hband2
        (fun c off hoff => tileByte_full_band src tw th (sy + 1) (sy / th) c off htw0 hfull
          (by omega) hoff)]
      rw [htr]
      simp [traceUpTo, hm, hdiv, List.range_succ, List.flatMap_append]
    · show false = _
      simp [hm]
    · show s1.tileCounterY = _
      rw [hcnt, numTiles_eq _ _ hth0, if_pos hm, hdiv]
    · intro h; exact absurd hm h
    · intro _ i hi
      show (if i < numTiles src.width tw then closedWriter (t.nameOf env (sy / th) i)
        else _).row_pointers = none
      rw [if_pos hi]
      rfl
  · have hm' : ¬ ((((sy + 1) % th : Nat) : Int) = 0) := by
      intro h; exact hm (by exact_mod_cast h)
    rw [if_neg hm']
    have hdiv := succ_div_of_mod_ne_zero sy th hm
    refine ⟨_, rfl, ?_, ?_, ?_, ?_, ?_, hoks⟩
    · show s1.trace = _
      rw [htr]
      simp [traceUpTo, hm, hdiv]
    · show s1.initPngFlag = _
      rw [hflag]; simp [hm]
    · show s1.tileCounterY = _
      rw [hcnt, numTiles_eq _ _ hth0, if_neg hm, hdiv]
    · intro _
      rw [hdiv]; exact hband2
    · intro h; exact absurd h hm

theorem numTiles_succ_le (sy th r : Nat) (hth0 : 0 < th) (hr : r < numTiles (sy + 1) th) :
    r < numTiles sy th ∨ (sy % th = 0 ∧ r = sy / th) := by
  rw [numTiles_eq _ _ hth0] at hr
  rw [numTiles_eq _ _ hth0]
  by_cases hm : sy % th = 0
  · rw [if_pos hm]
    by_cases hm1 : (sy + 1) % th = 0
    · rw [if_pos hm1, succ_div_of_mod_eq_zero sy th hm1] at hr
      omega
    · rw [if_neg hm1, succ_div_of_mod_ne_zero sy th hm1] at hr
      omega
  · rw [if_neg hm]
    by_cases hm1 : (sy + 1) % th = 0
    · rw [if_pos hm1, succ_div_of_mod_eq_zero sy th hm1] at hr
      omega
    · rw [if_neg hm1, succ_div_of_mod_ne_zero sy th hm1] at hr
      omega

/-- One round of the row loop, when the tiles of a band that starts at this
row can be opened. -/
theorem tileRow_step (t : PngTiler) (env : TilerEnv) (src : PngSource) (tw th : Nat)
    (htw0 : 0 < tw) (hth0 : 0 < th) (htw : t.tileWidth = tw) (hth : t.tileHeight = th)
    (hS : tw * th * bppOf src.rgba ≤ intMax)
    (hW : ∀ sx, sx < src.width → sx * bppOf src.rgba ≤ intMax)
    (sy : Nat) (s : TileState) (hsy : sy < src.height) (hinv : RowInv t env src tw th sy s)
    (hok : sy % th = 0 → ∀ c, c < numTiles src.width tw → t.tileOk env (sy / th) c = true) :
    ∃ s', tileRow t env src (numTiles src.width tw) sy s = some s' ∧
      RowInv t env src tw th (sy + 1) s' := by
  obtain ⟨s1, h1, hmid⟩ := tileRow_open t env src tw th hth0 htw hth hS sy s hinv hok
  have hoks : ∀ r c, r < numTiles (sy + 1) th → c < numTiles src.width tw →
      t.tileOk env r c = true := by
    intro r c hr hc
    rcases numTiles_succ_le sy th r hth0 hr with h | ⟨hm, rfl⟩
    · exact hinv.2.2.2.2.2 r c h hc
    · exact hok hm c hc
  obtain ⟨s', h2, hinv'⟩ :=
    tileRow_scatter_write t env src tw th htw0 hth0 htw hth hS hW sy hsy s1 hmid hoks
  refine ⟨s', ?_, hinv'⟩
  unfold tileRow
  simp only []
  rw [h1, Option.some_bind]
  exact h2

/-- A round of the row loop that returns has found the tiles of a band
starting at this row openable and every source offset of the row within the
`int` range. -/
theorem tileRow_eq_some (t : PngTiler) (env : TilerEnv) (src : PngSource) (tw th : Nat)
    (hth0 : 0 < th) (hth : t.tileHeight = th)
    (sy : Nat) (s s' : TileState) (hinv : RowInv t env src tw th sy s)
    (h : tileRow t env src (numTiles src.width tw) sy s = some s') :
    (sy % th = 0 → ∀ c, c < numTiles src.width tw → t.tileOk env (sy / th) c = true) ∧
    (∀ sx, sx < src.width → sx * bppOf src.rgba ≤ intMax) := by
  obtain ⟨_, hflag, hcnt, _, hrow, _⟩ := hinv
  unfold tileRow at h
  simp only [Option.bind_eq_some] at h
  obtain ⟨s1, h1, oy, _, s2, h2, _⟩ := h
  refine ⟨?_, scatterPixel_loop_eq_some t src _ sy oy src.width s1 s2 h2⟩
  intro hm c hc
  have hf : s.initPngFlag = false := by rw [hflag]; simp [hm]
  have hcnt' : s.tileCounterY = sy / th := by rw [hcnt, numTiles_eq _ _ hth0, if_pos hm]
  rw [if_pos hf, Option.map_eq_some'] at h1
  obtain ⟨s0, h0, _⟩ := h1
  have := initTile_loop_eq_some t env src.rgba (by omega) (numTiles src.width tw)
    { s with initPngFlag := true } s0 (hrow hm) h0 c hc
  rw [← hcnt']
  exact this

/-! ## The whole run on positive tile dimensions -/

theorem rowInv_init (t : PngTiler) (env : TilerEnv) (src : PngSource) (tw th : Nat)
    (hth0 : 0 < th) :
    RowInv t env src tw th 0
      { pngOut := fun _ => PngWriter.new, buf := env.junk, initPngFlag := false,
        tileCounterY := 0, trace := [] } := by
  have hz : numTiles 0 th = 0 := by rw [numTiles_eq _ _ hth0]; simp
  refine ⟨?_, ?_, ?_, ?_, ?_, ?_⟩
  · simp [traceUpTo]
  · simp
  · exact hz.symm
  · intro h; simp at h
  · intro _ i _; rfl
  · intro r c hr _
    rw [hz] at hr
    exact absurd hr (Nat.not_lt_zero r)

/-- The writes after the row loop complete the trace. -/
theorem final_writes (t : PngTiler) (env : TilerEnv) (src : PngSource) (tw th : Nat)
    (hth0 : 0 < th) (s1 : TileState) (hinv : RowInv t env src tw th src.height s1) :
    ∃ s2, (if s1.initPngFlag = true then forLoop (numTiles src.width tw) writeTile s1
        else some s1) = some s2 ∧ s2.trace = tileTrace t env src tw th := by
  obtain ⟨htr, hflag, _, hband, _, _⟩ := hinv
  by_cases hm : src.height % th = 0
  · have hf : s1.initPngFlag = false := by rw [hflag]; simp [hm]
    refine ⟨s1, by simp [hf], ?_⟩
    rw [htr]
    simp [traceUpTo, tileTrace, hm, numTiles_eq _ _ hth0]
  · have hf : s1.initPngFlag = true := by rw [hflag]; simp [hm]
    have hb := hband hm
    rw [if_pos hf, writeTile_loop env.files (t.nameOf env (src.height / th)) tw th src.rgba s1
      (numTiles src.width tw) hb.1]
    refine ⟨_, rfl, ?_⟩
    show s1.trace ++ _ = _
    rw [bandWrites_of_buf t env src tw th (src.height / th) src.height s1 hb
      (fun c off _ => rfl), htr]
    simp [traceUpTo, tileTrace, hm, numTiles_eq _ _ hth0, List.range_succ,
      List.flatMap_append]

theorem doTileFrom_unfold (t : PngTiler) (env : TilerEnv) (src : PngSource) (tw : Nat)
    (htw0 : 0 < tw) (htw : t.tileWidth = tw) :
    t.doTileFrom env src =
      (if numTiles src.width tw = 0 then some ()
        else
          match tileBytes t ((bppOf src.rgba : Nat) : Int) with
          | none => none
          | some size => if size < 0 then none else some ()).bind fun _ =>
      (forLoop src.height (tileRow t env src (numTiles src.width tw))
        { pngOut := fun _ => PngWriter.new, buf := env.junk, initPngFlag := false,
          tileCounterY := 0, trace := [] }).bind fun s1 =>
      (if s1.initPngFlag = true then forLoop (numTiles src.width tw) writeTile s1
        else some s1).bind fun s2 => some (0, s2.trace) := by
  have hn : ¬ ((((src.width + tw - 1) / tw : Nat) : Int) < 0) :=
    Int.not_lt.mpr (Int.ofNat_nonneg _)
  have hnum : (src.width + tw - 1) / tw = numTiles src.width tw := rfl
  unfold PngTiler.doTileFrom
  simp only [htw, ceilDiv_natCast src.width tw htw0, hn, if_false, Int.toNat_natCast, hnum]
  cases (if numTiles src.width tw = 0 then some ()
        else
          match tileBytes t ((bppOf src.rgba : Nat) : Int) with
          | none => none
          | some size => if size < 0 then none else some ()) with
  | none => rfl
  | some u =>
    simp only [Option.some_bind]
    cases forLoop src.height (tileRow t env src (numTiles src.width tw))
        { pngOut := fun _ => PngWriter.new, buf := env.junk, initPngFlag := false,
          tileCounterY := 0, trace := [] } with
    | none => rfl
    | some s1 =>
      simp only [Option.some_bind]
      cases (if s1.initPngFlag = true then forLoop (numTiles src.width tw) writeTile s1
        else some s1) <;> rfl

/-- On positive tile dimensions whose buffer size and source offsets stay
within the `int` range, when every tile of the grid has a name that fits and
a writer that opens, the loops of `doTile` return 0 and make exactly the
calls of `tileTrace`. -/
theorem doTileFrom_eq_tileTrace (t : PngTiler) (env : TilerEnv) (src : PngSource) (tw th : Nat)
    (htw0 : 0 < tw) (hth0 : 0 < th) (htw : t.tileWidth = tw) (hth : t.tileHeight = th)
    (hS : tw * th * bppOf src.rgba ≤ intMax)
    (hW : ∀ sx, sx < src.width → sx * bppOf src.rgba ≤ intMax)
    (hok : ∀ r c, r < numTiles src.height th → c < numTiles src.width tw →
      t.tileOk env r c = true) :
    t.doTileFrom env src = some (0, tileTrace t env src tw th) := by
  obtain ⟨s1, hloop, hinv⟩ := forLoop_invariant src.height
    (tileRow t env src (numTiles src.width tw)) (RowInv t env src tw th) _
    (rowInv_init t env src tw th hth0)
    (fun sy s hsy hi => tileRow_step t env src tw th htw0 hth0 htw hth hS hW sy s hsy hi
      (fun _ c hc => hok _ c (div_lt_ceil _ _ _ hth0 hsy) hc))
  obtain ⟨s2, hfin, htr⟩ := final_writes t env src tw th hth0 s1 hinv
  rw [doTileFrom_unfold t env src tw htw0 htw, hloop,
    tileBytes_natCast t tw th _ htw hth (bppOf_pos _) hS]
  have hnn : ¬ (((tw * th * bppOf src.rgba : Nat) : Int) < 0) :=
    Int.not_lt.mpr (Int.ofNat_nonneg _)
  simp only [hnn, if_false]
  have hal : (if numTiles src.width tw = 0 then some () else some ()) = some () := by
    split <;> rfl
  rw [hal, Option.some_bind, Option.some_bind, hfin, Option.some_bind, htr]

theorem tileRow_trace_of_no_columns (t : PngTiler) (env : TilerEnv) (src : PngSource)
    (sy : Nat) (s s' : TileState) (h : tileRow t env src 0 sy s = some s') :
    s'.trace = s.trace := by
  unfold tileRow at h
  simp only [forLoop_zero, Option.map_some', Option.bind_eq_some] at h
  obtain ⟨s1, h1, oy, _, s2, h2, m, _, h3⟩ := h
  have e1 : s1.trace = s.trace := by
    split at h1 <;> (cases h1; rfl)
  have e2 : s2.trace = s1.trace :=
    forLoop_preserves (fun x => x.trace = s1.trace) _
      (fun i a b hb ha => ((scatterPixel_eq_some t src 0 sy oy i a b hb).2.1).trans ha)
      _ _ _ h2 rfl
  have e3 : s'.trace = s2.trace := by
    split at h3 <;> (cases h3; rfl)
  rw [e3, e2, e1]

theorem tileTrace_of_no_columns (t : PngTiler) (env : TilerEnv) (src : PngSource) (tw th : Nat)
    (h : numTiles src.width tw = 0) : tileTrace t env src tw th = [] := by
  unfold tileTrace bandInits bandWrites
  rw [h]
  simp

/-- Partial correctness of the loops of `doTile` on positive tile
dimensions: a run that returns has returned 0 and made exactly the calls of
`tileTrace`, and every tile of the grid had a name that fits and a writer
that opened. -/
theorem doTileFrom_eq_some (t : PngTiler) (env : TilerEnv) (src : PngSource) (tw th : Nat)
    (htw0 : 0 < tw) (hth0 : 0 < th) (htw : t.tileWidth = tw) (hth : t.tileHeight = th)
    (res : Int × List Event) (h : t.doTileFrom env src = some res) :
    res = (0, tileTrace t env src tw th) ∧
    (∀ r c, r < numTiles src.height th → c < numTiles src.width tw →
      t.tileOk env r c = true) ∧
    (0 < numTiles src.width tw → tw * th * bppOf src.rgba ≤ intMax) := by
  rw [doTileFrom_unfold t env src tw htw0 htw] at h
  simp only [Option.bind_eq_some] at h
  obtain ⟨u, ha, s1, hloop, s2, hfin, hres⟩ := h
  cases hres
  by_cases hc0 : numTiles src.width tw = 0
  · rw [hc0] at hloop hfin
    have e1 : s1.trace = [] :=
      forLoop_preserves (fun x => x.trace = [])
        (tileRow t env src 0)
        (fun i a b hb ha => (tileRow_trace_of_no_columns t env src i a b hb).trans ha)
        _ _ _ hloop rfl
    have e2 : s2.trace = [] := by
      split at hfin
      · rw [forLoop_zero] at hfin; cases hfin; exact e1
      · cases hfin; exact e1
    rw [e2, tileTrace_of_no_columns t env src tw th hc0, hc0]
    exact ⟨rfl, fun r c _ hc => absurd hc (Nat.not_lt_zero c),
      fun h => absurd h (Nat.lt_irrefl 0)⟩
  · rw [if_neg hc0] at ha
    have hS : tw * th * bppOf src.rgba ≤ intMax := by
      cases hsz : tileBytes t ((bppOf src.rgba : Nat) : Int) with
      | none => rw [hsz] at ha; cases ha
      | some size => exact (tileBytes_eq_some t tw th _ size htw hth hsz).2
    have hinv : RowInv t env src tw th src.height s1 :=
      forLoop_partial src.height (tileRow t env src (numTiles src.width tw))
        (RowInv t env src tw th)
        (fun i a b hi hinv hb => by
          obtain ⟨hok, hW⟩ := tileRow_eq_some t env src tw th hth0 hth i a b hinv hb
          obtain ⟨b', e, hinv'⟩ :=
            tileRow_step t env src tw th htw0 hth0 htw hth hS hW i a hi hinv hok
          rw [e] at hb
          cases hb
          exact hinv')
        _ s1 (rowInv_init t env src tw th hth0) hloop
    obtain ⟨s2', hfin', htr⟩ := final_writes t env src tw th hth0 s1 hinv
    rw [hfin'] at hfin
    cases hfin
    rw [htr]
    refine ⟨rfl, ?_, fun _ => hS⟩
    have hall := hinv.2.2.2.2.2
    exact hall

/-! ## Tile names are distinct -/

/-- The number a list of decimal digit characters denotes. -/
theorem digitChar_val (k : Nat) (hk : k < 10) :
    (Nat.digitChar k).toNat - 48 = k ∧ Nat.digitChar k ≠ '.' := by
  interval_cases k <;> decide

theorem decVal_cons (c : Char) (l : List Char) (a : Nat) :
    decVal a (c :: l) = decVal (a * 10 + (c.toNat - 48)) l := rfl

theorem decVal_shift (l : List Char) (a : Nat) :
    decVal a l = a * 10 ^ l.length + decVal 0 l := by
  induction l generalizing a with
  | nil =>
    show a = a * 10 ^ 0 + 0
    rw [Nat.pow_zero, Nat.mul_one, Nat.add_zero]
  | cons c l ih =>
    show decVal (a * 10 + (c.toNat - 48)) l
      = a * 10 ^ (l.length + 1) + decVal (0 * 10 + (c.toNat - 48)) l
    generalize c.toNat - 48 = d
    rw [ih (a * 10 + d), ih (0 * 10 + d), Nat.pow_succ]
    ring

theorem toDigitsCore_spec (fuel : Nat) : ∀ (n : Nat) (ds : List Char), n < fuel →
    decVal 0 (Nat.toDigitsCore 10 fuel n ds) = n * 10 ^ ds.length + decVal 0 ds ∧
    (∀ c ∈ Nat.toDigitsCore 10 fuel n ds, c ≠ '.' ∨ c ∈ ds) := by
  induction fuel with
  | zero => intro n ds h; omega
  | succ fuel ih =>
    intro n ds h
    have hd := digitChar_val (n % 10) (Nat.mod_lt n (by decide))
    unfold Nat.toDigitsCore
    simp only []
    by_cases h0 : n / 10 = 0
    · rw [if_pos h0]
      constructor
      · rw [decVal_cons, decVal_shift, hd.1]
        have : n % 10 = n := by omega
        rw [this]; ring
      · intro c hc
        rcases List.mem_cons.mp hc with h1 | h1
        · left; rw [h1]; exact hd.2
        · right; exact h1
    · rw [if_neg h0]
      obtain ⟨i1, i2⟩ := ih (n / 10) (Nat.digitChar (n % 10) :: ds) (by omega)
      constructor
      · rw [i1, decVal_cons, decVal_shift _ (0 * 10 + _), hd.1]
        simp only [List.length_cons, Nat.pow_succ]
        have := Nat.div_add_mod n 10
        generalize n / 10 = q at *
        generalize n % 10 = m at *
        subst this
        ring
      · intro c hc
        rcases i2 c hc with h1 | h1
        · left; exact h1
        · rcases List.mem_cons.mp h1 with h2 | h2
          · left; rw [h2]; exact hd.2
          · right; exact h2

theorem toString_nat_data (n : Nat) :
    decVal 0 (toString n).data = n ∧ ∀ c ∈ (toString n).data, c ≠ '.' := by
  have h := toDigitsCore_spec (n + 1) n [] (Nat.lt_succ_self n)
  have e : (toString n).data = Nat.toDigitsCore 10 (n + 1) n [] := rfl
  rw [e]
  constructor
  · refine h.1.trans ?_
    show n * 10 ^ 0 + 0 = n
    rw [Nat.pow_zero, Nat.mul_one, Nat.add_zero]
  · intro c hc
    rcases h.2 c hc with h1 | h1
    · exact h1
    · exact absurd h1 (List.not_mem_nil c)

theorem split_at_dot (a a' b b' : List Char) (ha : ∀ c ∈ a, c ≠ '.') (ha' : ∀ c ∈ a', c ≠ '.')
    (h : a ++ '.' :: b = a' ++ '.' :: b') : a = a' ∧ b = b' := by
  induction a generalizing a' with
  | nil =>
    cases a' with
    | nil => simpa using h
    | cons x xs =>
      simp only [List.nil_append, List.cons_append, List.cons.injEq] at h
      exact absurd h.1.symm (ha' x (List.mem_cons_self _ _))
  | cons y ys ih =>
    cases a' with
    | nil =>
      simp only [List.nil_append, List.cons_append, List.cons.injEq] at h
      exact absurd h.1 (ha y (List.mem_cons_self _ _))
    | cons x xs =>
      simp only [List.cons_append, List.cons.injEq] at h
      obtain ⟨r1, r2⟩ := ih xs (fun c hc => ha c (List.mem_cons_of_mem _ hc))
        (fun c hc => ha' c (List.mem_cons_of_mem _ hc)) h.2
      exact ⟨by rw [h.1, r1], r2⟩

theorem tileName_injective (dir base : String) (r c r' c' : Nat)
    (h : tileName dir base r c = tileName dir base r' c') : r = r' ∧ c = c' := by
  unfold tileName at h
  have h1 := congrArg String.data h
  simp only [String.data_append, List.append_assoc] at h1
  have h2 := List.append_cancel_left (List.append_cancel_left (List.append_cancel_left h1))
  have h3 := List.append_cancel_left h2
  simp only [List.singleton_append] at h3
  obtain ⟨hr1, hr2⟩ := toString_nat_data r
  obtain ⟨hr1', hr2'⟩ := toString_nat_data r'
  obtain ⟨hc1, _⟩ := toString_nat_data c
  obtain ⟨hc1', _⟩ := toString_nat_data c'
  obtain ⟨k1, k2⟩ := split_at_dot _ _ _ _ hr2 hr2' h3
  have k3 := List.append_cancel_right k2
  constructor
  · rw [← hr1, ← hr1', k1]
  · rw [← hc1, ← hc1', k3]

/-! ## The grid of tiles -/

theorem numTiles_eq_ceil (len tile : Nat) (h : 0 < tile) :
    (numTiles len tile : Int) = ⌈(len : ℚ) / (tile : ℚ)⌉ := by
  symm
  rw [Int.ceil_eq_iff]
  have hq : (0 : ℚ) < (tile : ℚ) := by exact_mod_cast h
  have h1 := Nat.div_add_mod (len + tile - 1) tile
  have h2 := Nat.mod_lt (len + tile - 1) h
  have hdef : numTiles len tile = (len + tile - 1) / tile := rfl
  rw [← hdef] at h1
  generalize numTiles len tile = q at *
  generalize hp : tile * q = p at *
  have hp' : (tile : ℚ) * (q : ℚ) = (p : ℚ) := by exact_mod_cast hp
  constructor
  · rw [lt_div_iff₀ hq]
    have : (p : ℚ) - tile < len := by
      have : p < len + tile := by omega
      have : (p : ℚ) < (len : ℚ) + (tile : ℚ) := by exact_mod_cast this
      linarith
    push_cast
    nlinarith
  · rw [div_le_iff₀ hq]
    have : (len : ℚ) ≤ p := by
      have : len ≤ p := by omega
      exact_mod_cast this
    push_cast
    nlinarith

theorem mem_gridPairs (nR nC : Nat) (p : Nat × Nat) :
    p ∈ gridPairs nR nC ↔ p.1 < nR ∧ p.2 < nC := by
  unfold gridPairs
  simp only [List.mem_flatMap, List.mem_range, List.mem_map]
  constructor
  · rintro ⟨r, hr, c, hc, rfl⟩; exact ⟨hr, hc⟩
  · rintro ⟨h1, h2⟩; exact ⟨p.1, h1, p.2, h2, rfl⟩

theorem length_gridPairs (nR nC : Nat) : (gridPairs nR nC).length = nR * nC := by
  unfold gridPairs
  induction nR with
  | zero => simp
  | succ n ih =>
    rw [List.range_succ, List.flatMap_append, List.length_append, ih]
    simp [Nat.succ_mul]

theorem nodup_gridPairs (nR nC : Nat) : (gridPairs nR nC).Nodup := by
  unfold gridPairs
  rw [List.nodup_flatMap]
  constructor
  · intro r _
    exact (List.nodup_range nC).map (fun a b h => by simpa using h)
  · apply List.Pairwise.imp _ (List.nodup_range nR)
    intro a b hab
    intro p hp1 hp2
    rw [List.mem_map] at hp1 hp2
    obtain ⟨c1, _, rfl⟩ := hp1
    obtain ⟨c2, _, h⟩ := hp2
    exact hab (by simpa using (congrArg Prod.fst h).symm)

theorem nameOf_injective (t : PngTiler) (env : TilerEnv) (r c r' c' : Nat)
    (h : t.nameOf env r c = t.nameOf env r' c') : r = r' ∧ c = c' :=
  tileName_injective _ _ _ _ _ _ h

theorem filter_bandInits (t : PngTiler) (env : TilerEnv) (src : PngSource) (tw th r : Nat) :
    (bandInits t env src tw th r).filter Event.isInit = bandInits t env src tw th r ∧
    (bandInits t env src tw th r).filter Event.isWrite = [] ∧
    (bandInits t env src tw th r).filter Event.isClose = [] := by
  unfold bandInits
  refine ⟨?_, ?_, ?_⟩
  · rw [List.filter_eq_self]; intro e he
    obtain ⟨c, _, rfl⟩ := List.mem_map.mp he; rfl
  · rw [List.filter_eq_nil_iff]; intro e he
    obtain ⟨c, _, rfl⟩ := List.mem_map.mp he; simp [Event.isWrite]
  · rw [List.filter_eq_nil_iff]; intro e he
    obtain ⟨c, _, rfl⟩ := List.mem_map.mp he; simp [Event.isClose]

theorem filter_bandWrites (t : PngTiler) (env : TilerEnv) (src : PngSource) (tw th r : Nat) :
    (bandWrites t env src tw th r).filter Event.isInit = [] ∧
    (bandWrites t env src tw th r).filter Event.isWrite
      = (List.range (numTiles src.width tw)).map (fun c =>
          Event.write_image c (t.nameOf env r c) (tileHdr tw th src.rgba)
            (rowPointers tw th (bppOf src.rgba)) (tileImage src tw th r c)) ∧
    (bandWrites t env src tw th r).filter Event.isClose
      = (List.range (numTiles src.width tw)).map (fun c =>
          Event.close c [Action.png_write_end, Action.png_destroy_write_struct,
            Action.free_row_pointers, Action.fclose (env.files.stream (t.nameOf env r c))]) := by
  unfold bandWrites
  generalize List.range (numTiles src.width tw) = cs
  induction cs with
  | nil => simp
  | cons c cs ih =>
    obtain ⟨i1, i2, i3⟩ := ih
    simp only [List.flatMap_cons, List.filter_append, List.map_cons, i1, i2, i3]
    simp [List.filter, Event.isInit, Event.isWrite, Event.isClose]

theorem filter_tileTrace (t : PngTiler) (env : TilerEnv) (src : PngSource) (tw th : Nat) :
    (tileTrace t env src tw th).filter Event.isInit
      = (gridPairs (numTiles src.height th) (numTiles src.width tw)).map (fun p =>
          Event.init p.2 (t.nameOf env p.1 p.2) tw th th src.rgba 0
            [Action.png_write_info (tileHdr tw th src.rgba)]) ∧
    (tileTrace t env src tw th).filter Event.isWrite
      = (gridPairs (numTiles src.height th) (numTiles src.width tw)).map (fun p =>
          Event.write_image p.2 (t.nameOf env p.1 p.2) (tileHdr tw th src.rgba)
            (rowPointers tw th (bppOf src.rgba)) (tileImage src tw th p.1 p.2)) ∧
    (tileTrace t env src tw th).filter Event.isClose
      = (gridPairs (numTiles src.height th) (numTiles src.width tw)).map (fun p =>
          Event.close p.2 [Action.png_write_end, Action.png_destroy_write_struct,
            Action.free_row_pointers,
            Action.fclose (env.files.stream (t.nameOf env p.1 p.2))]) := by
  unfold tileTrace gridPairs
  generalize List.range (numTiles src.height th) = rs
  induction rs with
  | nil => simp
  | cons r rs ih =>
    obtain ⟨i1, i2, i3⟩ := ih
    obtain ⟨a1, a2, a3⟩ := filter_bandInits t env src tw th r
    obtain ⟨b1, b2, b3⟩ := filter_bandWrites t env src tw th r
    simp only [List.flatMap_cons, List.filter_append, List.map_append, i1, i2, i3, a1, a2, a3,
      b1, b2, b3, List.append_nil, List.nil_append, List.map_map]
    refine ⟨?_, ?_, ?_⟩
    · congr 1
    · congr 1
    · congr 1

theorem mem_tileTrace (t : PngTiler) (env : TilerEnv) (src : PngSource) (tw th : Nat) (e : Event) :
    e ∈ tileTrace t env src tw th ↔
      ∃ r c, r < numTiles src.height th ∧ c < numTiles src.width tw ∧
        (e = Event.init c (t.nameOf env r c) tw th th src.rgba 0
              [Action.png_write_info (tileHdr tw th src.rgba)] ∨
         e = Event.write_image c (t.nameOf env r c) (tileHdr tw th src.rgba)
              (rowPointers tw th (bppOf src.rgba)) (tileImage src tw th r c) ∨
         e = Event.close c [Action.png_write_end, Action.png_destroy_write_struct,
              Action.free_row_pointers,
              Action.fclose (env.files.stream (t.nameOf env r c))]) := by
  unfold tileTrace bandInits bandWrites
  simp only [List.mem_flatMap, List.mem_append, List.mem_map, List.mem_range, List.mem_cons,
    List.mem_singleton, List.not_mem_nil, or_false]
  constructor
  · rintro ⟨r, hr, h⟩
    rcases h with ⟨c, hc, rfl⟩ | ⟨c, hc, h⟩
    · exact ⟨r, c, hr, hc, Or.inl rfl⟩
    · rcases h with rfl | rfl
      · exact ⟨r, c, hr, hc, Or.inr (Or.inl rfl)⟩
      · exact ⟨r, c, hr, hc, Or.inr (Or.inr rfl)⟩
  · rintro ⟨r, c, hr, hc, h⟩
    refine ⟨r, hr, ?_⟩
    rcases h with rfl | rfl | rfl
    · exact Or.inl ⟨c, hc, rfl⟩
    · exact Or.inr ⟨c, hc, Or.inl rfl⟩
    · exact Or.inr ⟨c, hc, Or.inr rfl⟩

theorem tileImage_get (src : PngSource) (tw th r c off : Nat)
    (h : off < tw * th * bppOf src.rgba) :
    (tileImage src tw th r c)[off]? = some (tileByte src tw th src.height r c off) := by
  unfold tileImage
  have h' : off < th * (tw * bppOf src.rgba) := by
    rw [← Nat.mul_assoc, Nat.mul_comm th tw]; exact h
  rw [List.getElem?_map, List.getElem?_range h']
  rfl

theorem tileByte_pixel (src : PngSource) (tw th lim r c lx ly k : Nat) (hlx : lx < tw)
    (hk : k < bppOf src.rgba) :
    tileByte src tw th lim r c ((ly * tw + lx) * bppOf src.rgba + k)
      = if r * th + ly < lim ∧ c * tw + lx < src.width then
          src.rows (r * th + ly) ((c * tw + lx) * bppOf src.rgba + k)
        else 0 := by
  have hb := bppOf_pos src.rgba
  have h1 : ((ly * tw + lx) * bppOf src.rgba + k) / bppOf src.rgba = ly * tw + lx := by
    rw [Nat.mul_comm, Nat.mul_add_div hb, Nat.div_eq_of_lt hk, Nat.add_zero]
  have h2 : ((ly * tw + lx) * bppOf src.rgba + k) % bppOf src.rgba = k := by
    rw [Nat.mul_comm, Nat.mul_add_mod, Nat.mod_eq_of_lt hk]
  have h3 : (ly * tw + lx) / tw = ly := by
    rw [Nat.mul_comm, Nat.mul_add_div (by omega), Nat.div_eq_of_lt hlx, Nat.add_zero]
  have h4 : (ly * tw + lx) % tw = lx := by
    rw [Nat.mul_comm, Nat.mul_add_mod, Nat.mod_eq_of_lt hlx]
  unfold tileByte
  rw [h1, h2, h3, h4]

/-- The call `PngWriter::init` returns 0 exactly when all its library calls
succeed. -/
theorem PngWriter.init_code_eq_zero_iff (fe : FileEnv) (w : PngWriter) (fn : String)
    (width height numRowPointers : Int) (rgbaFlag : Bool) :
    (PngWriter.init fe w fn width height numRowPointers rgbaFlag).map (fun r => r.1) = some 0
      ↔ fe.writerOk fn width height = true := by
  unfold PngWriter.init PngWriter.open FileEnv.writerOk
  cases hf : fe.fopen fn with
  | none => simp [hf]
  | some f =>
    cases h1 : fe.create_struct fn <;> cases h2 : fe.create_info fn <;>
      cases h3 : fe.set_IHDR width height <;> simp [hf, h1, h2, h3]
theorem mem_trace_write (t : PngTiler) (env : TilerEnv) (src : PngSource) (tw th : Nat)
    (r c i : Nat) (hdr : Ihdr) (ptrs : List Nat) (img : List Byte)
    (h : Event.write_image i (t.nameOf env r c) hdr ptrs img ∈ tileTrace t env src tw th) :
    r < numTiles src.height th ∧ c < numTiles src.width tw ∧ i = c ∧
    hdr = tileHdr tw th src.rgba ∧ ptrs = rowPointers tw th (bppOf src.rgba) ∧
    img = tileImage src tw th r c := by
  rw [mem_tileTrace] at h
  obtain ⟨r', c', hr, hc, h⟩ := h
  rcases h with h | h | h
  · cases h
  · simp only [Event.write_image.injEq] at h
    obtain ⟨h1, h2, h3, h4, h5⟩ := h
    obtain ⟨e1, e2⟩ := nameOf_injective t env _ _ _ _ h2
    subst e1 e2
    exact ⟨hr, hc, h1, h3, h4, h5⟩
  · cases h

theorem row_slices_partition (tw th bpp off : Nat) (h : off < tw * th * bpp) :
    ∃! ty, ty < th ∧ ty * tw * bpp ≤ off ∧ off < ty * tw * bpp + tw * bpp := by
  have hpos : 0 < tw * bpp := by
    rcases Nat.eq_zero_or_pos (tw * bpp) with h0 | h0
    · rw [Nat.mul_comm tw th, Nat.mul_assoc, h0] at h; simp at h
    · exact h0
  have h' : off < th * (tw * bpp) := by
    rw [← Nat.mul_assoc, Nat.mul_comm th tw]; exact h
  have key : ∀ ty, (ty * tw * bpp ≤ off ∧ off < ty * tw * bpp + tw * bpp) ↔ off / (tw * bpp) = ty := by
    intro ty
    rw [Nat.mul_assoc]
    exact offset_split (tw * bpp) ty off hpos
  refine ⟨off / (tw * bpp), ⟨?_, (key _).mpr rfl⟩, ?_⟩
  · rw [Nat.div_lt_iff_lt_mul hpos]; exact h'
  · intro ty hty
    exact ((key ty).mp hty.2).symm


/-! ## The source raster of `doTile` -/

theorem doTile_of_source (t : PngTiler) (env : TilerEnv) (src : PngSource)
    (h : t.source env = some src) : t.doTile env = t.doTileFrom env src := by
  unfold PngTiler.source at h
  unfold PngTiler.doTile
  simp only []
  cases hr : PngReader.read env.decode
      (PngReader.init env.files (PngReader.new env.end_info) t.filename).2.1 with
  | none => rw [hr] at h; cases h
  | some r =>
    rw [hr] at h
    simp only [Option.map_some', Option.some.injEq] at h
    rw [← h]

theorem source_of_doTile (t : PngTiler) (env : TilerEnv) (res : Int × List Event)
    (h : t.doTile env = some res) :
    ∃ src, t.source env = some src ∧ t.doTileFrom env src = some res := by
  unfold PngTiler.doTile at h
  simp only [] at h
  unfold PngTiler.source
  cases hr : PngReader.read env.decode
      (PngReader.init env.files (PngReader.new env.end_info) t.filename).2.1 with
  | none => rw [hr] at h; cases h
  | some r =>
    rw [hr] at h
    exact ⟨r.2.2, rfl, h⟩

/-- After a failed `PngReader::init` the libpng structs of the reader are
null, and `read` and the accessors report the empty raster. -/
theorem source_of_failed_init (t : PngTiler) (env : TilerEnv)
    (h : (PngReader.init env.files (PngReader.new env.end_info) t.filename).1 ≠ 0) :
    t.source env = some emptySource := by
  unfold PngTiler.source
  unfold PngReader.init PngReader.open at h ⊢
  simp only [PngReader.new] at h ⊢
  cases hf : env.files.fopen t.filename with
  | none => simp [PngReader.read]
  | some f =>
    simp only [hf] at h ⊢
    cases h1 : env.files.create_struct t.filename
    · simp [PngReader.read]
    · cases h2 : env.files.create_info t.filename
      · simp [PngReader.read]
      · cases h3 : env.files.create_end_info t.filename
        · simp [PngReader.read]
        · simp [h1, h2, h3] at h

/-- Total correctness of `doTile` on positive tile dimensions: within the
`int` range, with tile names that fit and writers that open, `doTile`
returns 0 and its calls are those of `tileTrace`. -/
theorem doTile_returns (t : PngTiler) (env : TilerEnv) (src : PngSource)
    (htw : 0 < t.tileWidth) (hth : 0 < t.tileHeight) (hsrc : t.source env = some src)
    (hsize : t.tileWidth * t.tileHeight * (bppOf src.rgba : Int) ≤ 2147483647)
    (hrow : (src.width : Int) * (bppOf src.rgba : Int) ≤ 2147483647)
    (hok : ∀ r c, r < numTiles src.height t.tileHeight.toNat →
      c < numTiles src.width t.tileWidth.toNat → t.tileOk env r c = true) :
    t.doTile env = some (0, tileTrace t env src t.tileWidth.toNat t.tileHeight.toNat) := by
  rw [doTile_of_source t env src hsrc]
  obtain ⟨tw, htw'⟩ := Int.eq_ofNat_of_zero_le (le_of_lt htw)
  obtain ⟨th, hth'⟩ := Int.eq_ofNat_of_zero_le (le_of_lt hth)
  have e1 : t.tileWidth.toNat = tw := by omega
  have e2 : t.tileHeight.toNat = th := by omega
  rw [e1, e2] at hok ⊢
  rw [htw', hth'] at hsize
  have hS : tw * th * bppOf src.rgba ≤ intMax := by
    unfold intMax
    exact_mod_cast hsize
  have hW : src.width * bppOf src.rgba ≤ intMax := by
    unfold intMax
    exact_mod_cast hrow
  refine doTileFrom_eq_tileTrace t env src tw th (by omega) (by omega) htw' hth' hS ?_ hok
  intro sx hsx
  exact le_trans (Nat.mul_le_mul_right _ (le_of_lt hsx)) hW

/-- Partial correctness of `doTile` on positive tile dimensions: a run that
returns has returned 0 and made exactly the calls of `tileTrace`; every tile
of the grid had a name that fits and a writer that opened; and when there
is a tile column the buffer size was within the `int` range. -/
theorem doTile_eq_some (t : PngTiler) (env : TilerEnv) (src : PngSource)
    (htw : 0 < t.tileWidth) (hth : 0 < t.tileHeight) (hsrc : t.source env = some src)
    (res : Int × List Event) (hres : t.doTile env = some res) :
    res = (0, tileTrace t env src t.tileWidth.toNat t.tileHeight.toNat) ∧
    (∀ r c, r < numTiles src.height t.tileHeight.toNat →
      c < numTiles src.width t.tileWidth.toNat → t.tileOk env r c = true) ∧
    (0 < numTiles src.width t.tileWidth.toNat →
      t.tileWidth.toNat * t.tileHeight.toNat * bppOf src.rgba ≤ intMax) := by
  rw [doTile_of_source t env src hsrc] at hres
  exact doTileFrom_eq_some t env src t.tileWidth.toNat t.tileHeight.toNat (by omega) (by omega)
    (by omega) (by omega) res hres

/-- The example run is within the limits of `doTile`. -/
theorem withinLimits_example : exampleTiler.withinLimits exampleEnv exampleSource := by
  refine ⟨by decide, by decide, ?_⟩
  intro r c hr hc
  have hr2 : r < 2 := hr
  have hc2 : c < 2 := hc
  interval_cases r <;> interval_cases c <;> exact ⟨by decide, rfl⟩

/-- Within its limits `doTile` returns. -/
theorem doTile_returns_of_withinLimits (t : PngTiler) (env : TilerEnv) (src : PngSource)
    (htw : 0 < t.tileWidth) (hth : 0 < t.tileHeight) (hsrc : t.source env = some src)
    (h : t.withinLimits env src) : ∃ res, t.doTile env = some res := by
  refine ⟨_, doTile_returns t env src htw hth hsrc h.1 h.2.1 ?_⟩
  intro r c hr hc
  rw [tileOk_iff]
  exact ⟨(h.2.2 r c hr hc).1,
    (PngWriter.init_code_eq_zero_iff _ _ _ _ _ _ _).mp (h.2.2 r c hr hc).2⟩

/-! ## The claims about `doTile` on positive tile dimensions -/

/-- C1, amended: for every source raster (width `W`, height `H`, `C` bytes
per pixel) and positive `tileWidth`, `tileHeight`, when
`tileWidth * tileHeight * C` and `W * C` do not exceed the `int` range, every
tile name of the grid is shorter than the 256 bytes of `tmpstring` and every
`PngWriter::init` of the grid returns 0, `doTile` returns 0 and its calls
are, band after band, the `init` of every tile of the band and then
`png_write_image` and `close` (with its `fclose`) of every tile of the band.
The tiles opened, written and closed are exactly those of the index pairs
`(tileRow, tileCol)` with `tileRow < ceil(H/tileHeight)` and
`tileCol < ceil(W/tileWidth)`, each pair once, under the name
`<dirOutput>/<basename(filename)>.<tileRow>.<tileCol>.png`; the names are
pairwise distinct and their number is `ceil(H/tileHeight) * ceil(W/tileWidth)`. -/
theorem doTile_tiles_grid (t : PngTiler) (env : TilerEnv) (src : PngSource)
    (htw : 0 < t.tileWidth) (hth : 0 < t.tileHeight) (hsrc : t.source env = some src)
    (hsize : t.tileWidth * t.tileHeight * (bppOf src.rgba : Int) ≤ 2147483647)
    (hrow : (src.width : Int) * (bppOf src.rgba : Int) ≤ 2147483647)
    (hname : ∀ r c, r < numTiles src.height t.tileHeight.toNat →
      c < numTiles src.width t.tileWidth.toNat →
      (tileName t.dirOutput (env.mybasename t.filename) r c).utf8ByteSize < 256)
    (hinit : ∀ r c, r < numTiles src.height t.tileHeight.toNat →
      c < numTiles src.width t.tileWidth.toNat →
      (PngWriter.init env.files PngWriter.new
        (tileName t.dirOutput (env.mybasename t.filename) r c)
        t.tileWidth t.tileHeight t.tileHeight src.rgba).map (fun r => r.1) = some 0) :
    ∃ trace grid,
      t.doTile env = some (0, trace) ∧
      trace = tileTrace t env src t.tileWidth.toNat t.tileHeight.toNat ∧
      grid = gridPairs (numTiles src.height t.tileHeight.toNat)
        (numTiles src.width t.tileWidth.toNat) ∧
      (∀ p : Nat × Nat, p ∈ grid ↔
        (p.1 : Int) < ⌈(src.height : ℚ) / (t.tileHeight : ℚ)⌉ ∧
        (p.2 : Int) < ⌈(src.width : ℚ) / (t.tileWidth : ℚ)⌉) ∧
      grid.Nodup ∧
      (grid.length : Int) = ⌈(src.height : ℚ) / (t.tileHeight : ℚ)⌉
        * ⌈(src.width : ℚ) / (t.tileWidth : ℚ)⌉ ∧
      trace.filter Event.isInit = grid.map (fun p =>
        Event.init p.2
          (tileName t.dirOutput (env.mybasename t.filename) p.1 p.2)
          t.tileWidth t.tileHeight t.tileHeight src.rgba 0
          [Action.png_write_info ⟨t.tileWidth, t.tileHeight, src.rgba⟩]) ∧
      (trace.filter Event.isWrite).map (fun e => match e with
          | Event.write_image i fn _ _ _ => (i, fn)
          | _ => (0, ""))
        = grid.map (fun p => (p.2, tileName t.dirOutput (env.mybasename t.filename) p.1 p.2)) ∧
      trace.filter Event.isClose = grid.map (fun p =>
        Event.close p.2 [Action.png_write_end, Action.png_destroy_write_struct,
          Action.free_row_pointers,
          Action.fclose (env.files.stream
            (tileName t.dirOutput (env.mybasename t.filename) p.1 p.2))]) ∧
      (grid.map (fun p => tileName t.dirOutput (env.mybasename t.filename) p.1 p.2)).Nodup := by
  have hok : ∀ r c, r < numTiles src.height t.tileHeight.toNat →
      c < numTiles src.width t.tileWidth.toNat → t.tileOk env r c = true := by
    intro r c hr hc
    rw [tileOk_iff]
    exact ⟨hname r c hr hc, (PngWriter.init_code_eq_zero_iff _ _ _ _ _ _ _).mp (hinit r c hr hc)⟩
  have hrun := doTile_returns t env src htw hth hsrc hsize hrow hok
  obtain ⟨tw, htw'⟩ := Int.eq_ofNat_of_zero_le (le_of_lt htw)
  obtain ⟨th, hth'⟩ := Int.eq_ofNat_of_zero_le (le_of_lt hth)
  have htw0 : 0 < tw := by omega
  have hth0 : 0 < th := by omega
  have e1 : t.tileWidth.toNat = tw := by omega
  have e2 : t.tileHeight.toNat = th := by omega
  rw [e1, e2] at hrun
  rw [e1, e2]
  obtain ⟨f1, f2, f3⟩ := filter_tileTrace t env src tw th
  have c1 := numTiles_eq_ceil src.height th hth0
  have c2 := numTiles_eq_ceil src.width tw htw0
  rw [htw', hth']
  refine ⟨_, _, hrun, rfl, rfl, ?_, nodup_gridPairs _ _, ?_, ?_, ?_, ?_, ?_⟩
  · intro p
    rw [mem_gridPairs]
    simp only [Int.cast_natCast, ← c1, ← c2, Nat.cast_lt]
  · rw [length_gridPairs]
    simp only [Int.cast_natCast, ← c1, ← c2]
    push_cast; rfl
  · rw [f1]; rfl
  · rw [f2, List.map_map]; rfl
  · rw [f3]; rfl
  · apply (nodup_gridPairs _ _).map_on
    intro p _ q _ h
    obtain ⟨h1, h2⟩ := tileName_injective _ _ _ _ _ _ h
    exact Prod.ext h1 h2

/-- Witness of C1, amended: the example run (5 x 5 RGB source, 3 x 3 tiles)
meets the hypotheses and produces the four tiles of the 2 x 2 grid. -/
theorem doTile_tiles_grid_witness :
    (0 : Int) < exampleTiler.tileWidth ∧ (0 : Int) < exampleTiler.tileHeight ∧
    exampleTiler.tileWidth * exampleTiler.tileHeight * (bppOf exampleSource.rgba : Int)
      ≤ 2147483647 ∧
    (exampleSource.width : Int) * (bppOf exampleSource.rgba : Int) ≤ 2147483647 ∧
    (∀ r c, r < 2 → c < 2 → (tileName "tiles" "map.png" r c).utf8ByteSize < 256) ∧
    (∀ r c, r < 2 → c < 2 →
      (PngWriter.init exampleFiles PngWriter.new (tileName "tiles" "map.png" r c)
        3 3 3 false).map (fun r => r.1) = some 0) ∧
    ∃ trace, exampleTiler.doTile exampleEnv = some (0, trace) ∧
      (trace.filter Event.isWrite).map (fun e => match e with
          | Event.write_image i fn _ _ _ => (i, fn)
          | _ => (0, ""))
        = [(0, "tiles/map.png.0.0.png"), (1, "tiles/map.png.0.1.png"),
           (0, "tiles/map.png.1.0.png"), (1, "tiles/map.png.1.1.png")] := by
  have hname : ∀ r c, r < 2 → c < 2 → (tileName "tiles" "map.png" r c).utf8ByteSize < 256 := by
    intro r c hr hc
    interval_cases r <;> interval_cases c <;> decide
  have hinit : ∀ r c, r < 2 → c < 2 →
      (PngWriter.init exampleFiles PngWriter.new (tileName "tiles" "map.png" r c)
        3 3 3 false).map (fun r => r.1) = some 0 := fun _ _ _ _ => rfl
  refine ⟨by decide, by decide, by decide, by decide, hname, hinit, ?_⟩
  obtain ⟨trace, grid, h1, _, h3, _, _, _, _, h8, _, _⟩ :=
    doTile_tiles_grid exampleTiler exampleEnv exampleSource (by decide) (by decide) rfl
      (by decide) (by decide) hname hinit
  refine ⟨trace, h1, ?_⟩
  rw [h8, h3]
  decide

set_option maxRecDepth 100000 in
/-- The name of the first tile of `longNameTiler` does not fit `tmpstring`. -/
theorem sprintf256_longName :
    sprintf256 (tileName longNameTiler.dirOutput "map.png" 0 0) = none := by decide

set_option maxRecDepth 100000 in
/-- The run of `longNameTiler` ends at the `sprintf` of its first tile. -/
theorem doTile_longName : longNameTiler.doTile exampleEnv = none := by decide

/-- C1 as stated fails: on the 5 x 5 source with positive tile dimensions
for which the grid has 5, 4 and 4 tiles, `doTile` produces no tile and
returns no status: with `tileWidth = 715827883`, `tileHeight = 1` the `int`
product `tileWidth * tileHeight * 3` overflows; with an output directory of
300 bytes `sprintf` writes past `tmpstring[256]`; with output files that do
not open `doTile` stores through the null `row_pointers` of the writer. -/
theorem doTile_tiles_grid_fails :
    ((hugeTiler.source exampleEnv).map fun s => (s.width, s.height)) = some (5, 5) ∧
    (0 < hugeTiler.tileWidth ∧ 0 < hugeTiler.tileHeight) ∧
    numTiles 5 hugeTiler.tileHeight.toNat * numTiles 5 hugeTiler.tileWidth.toNat = 5 ∧
    tileBytes hugeTiler 3 = none ∧
    hugeTiler.doTile exampleEnv = none ∧
    (0 < longNameTiler.tileWidth ∧ 0 < longNameTiler.tileHeight) ∧
    sprintf256 (tileName longNameTiler.dirOutput "map.png" 0 0) = none ∧
    longNameTiler.doTile exampleEnv = none ∧
    (PngWriter.init noOutputEnv.files PngWriter.new "tiles/map.png.0.0.png"
      3 3 3 false).map (fun r => r.1) = some (-1) ∧
    ((exampleTiler.source noOutputEnv).map fun s => (s.width, s.height)) = some (5, 5) ∧
    exampleTiler.doTile noOutputEnv = none := by
  refine ⟨rfl, by decide, by decide, by decide, by decide, by decide, sprintf256_longName,
    doTile_longName, by decide, rfl, by decide⟩

/-- C2, amended: for every source raster (`W`, `H`, `C` bytes per pixel),
positive `tileWidth`, `tileHeight` and every source pixel `(sx, sy)` with
`sx < W`, `sy < H`: whenever `doTile` returns, it has written a tile named
for `(sy / tileHeight, sx / tileWidth)`, and every tile it has written under
that name holds, at byte offset
`((sy % tileHeight) * tileWidth + sx % tileWidth) * C + k` for each `k < C`,
the byte of source row `sy` at offset `sx * C + k`.  `doTile` does return
within its limits: `tileWidth * tileHeight * C` and `W * C` in the `int` range,
tile names that fit `tmpstring`, writers that open. -/
theorem doTile_tile_holds_source_pixel (t : PngTiler) (env : TilerEnv) (src : PngSource)
    (htw : 0 < t.tileWidth) (hth : 0 < t.tileHeight) (hsrc : t.source env = some src)
    (sx sy k : Nat) (hsx : sx < src.width) (hsy : sy < src.height)
    (hk : k < bppOf src.rgba) :
    (t.withinLimits env src → ∃ res, t.doTile env = some res) ∧
    ∀ res, t.doTile env = some res →
      (∃ i hdr ptrs img,
        Event.write_image i
          (tileName t.dirOutput (env.mybasename t.filename)
            (sy / t.tileHeight.toNat) (sx / t.tileWidth.toNat)) hdr ptrs img ∈ res.2) ∧
      ∀ i hdr ptrs img,
        Event.write_image i
          (tileName t.dirOutput (env.mybasename t.filename)
            (sy / t.tileHeight.toNat) (sx / t.tileWidth.toNat)) hdr ptrs img ∈ res.2 →
        img[((sy % t.tileHeight.toNat) * t.tileWidth.toNat + sx % t.tileWidth.toNat)
              * bppOf src.rgba + k]?
          = some (src.rows sy (sx * bppOf src.rgba + k)) := by
  refine ⟨doTile_returns_of_withinLimits t env src htw hth hsrc, ?_⟩
  intro res hres
  obtain ⟨hrun, _, _⟩ := doTile_eq_some t env src htw hth hsrc res hres
  subst hrun
  have htw0 : 0 < t.tileWidth.toNat := by omega
  have hth0 : 0 < t.tileHeight.toNat := by omega
  generalize t.tileWidth.toNat = tw at *
  generalize t.tileHeight.toNat = th at *
  have hr : sy / th < numTiles src.height th := div_lt_ceil _ _ _ hth0 hsy
  have hc : sx / tw < numTiles src.width tw := div_lt_ceil _ _ _ htw0 hsx
  refine ⟨?_, ?_⟩
  · refine ⟨sx / tw, tileHdr tw th src.rgba, rowPointers tw th (bppOf src.rgba),
      tileImage src tw th (sy / th) (sx / tw), ?_⟩
    show _ ∈ tileTrace t env src tw th
    rw [mem_tileTrace]
    exact ⟨sy / th, sx / tw, hr, hc, Or.inr (Or.inl rfl)⟩
  · intro i hdr ptrs img hmem
    obtain ⟨_, _, _, _, _, himg⟩ := mem_trace_write t env src tw th _ _ i hdr ptrs img hmem
    have hlx : sx % tw < tw := Nat.mod_lt sx htw0
    have hly : sy % th < th := Nat.mod_lt sy hth0
    have hb := pixel_offset_bound tw th (bppOf src.rgba) (sy % th) (sx % tw) hly hlx
    rw [himg, tileImage_get src tw th _ _ _ (by omega),
      tileByte_pixel src tw th _ _ _ _ _ _ hlx hk]
    have e1 : sy / th * th + sy % th = sy := by
      rw [Nat.mul_comm]; exact Nat.div_add_mod sy th
    have e2 : sx / tw * tw + sx % tw = sx := by
      rw [Nat.mul_comm]; exact Nat.div_add_mod sx tw
    rw [e1, e2, if_pos ⟨hsy, hsx⟩]

/-- Witness of C2, amended: the example run (5 x 5 RGB source, 3 x 3 tiles) returns,
and its tile `(0, 0)` holds the source pixel `(2, 1)`, channel 1, at offset
`(1 * 3 + 2) * 3 + 1`. -/
theorem doTile_tile_holds_source_pixel_witness :
    (0 : Int) < exampleTiler.tileWidth ∧ (0 : Int) < exampleTiler.tileHeight ∧
    (2 < exampleSource.width ∧ 1 < exampleSource.height ∧ 1 < bppOf exampleSource.rgba) ∧
    ∃ res, exampleTiler.doTile exampleEnv = some res ∧
      (∃ i hdr ptrs img, Event.write_image i "tiles/map.png.0.0.png" hdr ptrs img ∈ res.2) ∧
      ∀ i hdr ptrs img,
        Event.write_image i "tiles/map.png.0.0.png" hdr ptrs img ∈ res.2 →
        img[16]? = some (exampleSource.rows 1 7) := by
  refine ⟨by decide, by decide, by decide, ?_⟩
  obtain ⟨h1, h2⟩ :=
    doTile_tile_holds_source_pixel exampleTiler exampleEnv exampleSource (by decide) (by decide)
      rfl 2 1 1 (by decide) (by decide) (by decide)
  obtain ⟨res, hres⟩ := h1 withinLimits_example
  exact ⟨res, hres, (h2 res hres).1, (h2 res hres).2⟩

/-- C2 as stated fails: the 5 x 5 example source has the pixel `(0, 0)`,
and for the positive tile dimensions 715827883 x 1 no tile is written for
it: the `int` product `tileWidth * tileHeight * 3` overflows and `doTile`
returns nothing.  Neither is a tile written with 3 x 3 tiles when the
output files do not open, or when the tile name does not fit `tmpstring`. -/
theorem doTile_tile_holds_source_pixel_fails :
    (0 < hugeTiler.tileWidth ∧ 0 < hugeTiler.tileHeight) ∧
    ((hugeTiler.source exampleEnv).map fun s => (s.width, s.height)) = some (5, 5) ∧
    imul (hugeTiler.tileWidth * hugeTiler.tileHeight) 3 = none ∧
    hugeTiler.doTile exampleEnv = none ∧
    exampleTiler.doTile noOutputEnv = none ∧
    longNameTiler.doTile exampleEnv = none := by
  exact ⟨by decide, rfl, by decide, by decide, by decide, doTile_longName⟩

/-- C3, amended: for every source raster and positive `tileWidth`,
`tileHeight`, whenever `doTile` returns, in every tile it has written for
`(tileRow, tileCol)` the pixel at local position `(lx, ly)` with
`tileCol * tileWidth + lx >= W` or `tileRow * tileHeight + ly >= H` has all
its `C` bytes zero when the tile is written, whatever the buffers held when
they were allocated (`env.junk`) and in every band.  `doTile` does return
within its limits. -/
theorem doTile_padding_is_zero (t : PngTiler) (env : TilerEnv) (src : PngSource)
    (htw : 0 < t.tileWidth) (hth : 0 < t.tileHeight) (hsrc : t.source env = some src)
    (tileRow tileCol lx ly k : Nat) (hlx : lx < t.tileWidth.toNat)
    (hly : ly < t.tileHeight.toNat) (hk : k < bppOf src.rgba)
    (hout : src.width ≤ tileCol * t.tileWidth.toNat + lx ∨
      src.height ≤ tileRow * t.tileHeight.toNat + ly) :
    (t.withinLimits env src → ∃ res, t.doTile env = some res) ∧
    ∀ res, t.doTile env = some res →
      ∀ i hdr ptrs img,
        Event.write_image i
          (tileName t.dirOutput (env.mybasename t.filename) tileRow tileCol) hdr ptrs img
            ∈ res.2 →
        img[(ly * t.tileWidth.toNat + lx) * bppOf src.rgba + k]? = some 0 := by
  refine ⟨doTile_returns_of_withinLimits t env src htw hth hsrc, ?_⟩
  intro res hres
  obtain ⟨hrun, _, _⟩ := doTile_eq_some t env src htw hth hsrc res hres
  subst hrun
  generalize t.tileWidth.toNat = tw at *
  generalize t.tileHeight.toNat = th at *
  intro i hdr ptrs img hmem
  obtain ⟨_, _, _, _, _, himg⟩ := mem_trace_write t env src tw th _ _ i hdr ptrs img hmem
  have hb := pixel_offset_bound tw th (bppOf src.rgba) ly lx hly hlx
  rw [himg, tileImage_get src tw th _ _ _ (by omega),
    tileByte_pixel src tw th _ _ _ _ _ _ hlx hk, if_neg]
  intro h
  omega

/-- Witness of C3, amended: the example run returns and has written the tile
`(1, 1)` of the last, partial band, whose bytes at local pixel `(2, 2)` are
zero (the source pixel `(5, 5)` does not exist). -/
theorem doTile_padding_is_zero_witness :
    (0 : Int) < exampleTiler.tileWidth ∧ (0 : Int) < exampleTiler.tileHeight ∧
    (exampleSource.width ≤ 1 * 3 + 2 ∨ exampleSource.height ≤ 1 * 3 + 2) ∧
    ∃ res, exampleTiler.doTile exampleEnv = some res ∧
      (∃ i hdr ptrs img, Event.write_image i "tiles/map.png.1.1.png" hdr ptrs img ∈ res.2) ∧
      ∀ i hdr ptrs img,
        Event.write_image i "tiles/map.png.1.1.png" hdr ptrs img ∈ res.2 →
        img[(2 * 3 + 2) * 3 + 0]? = some 0 := by
  refine ⟨by decide, by decide, by decide, ?_⟩
  obtain ⟨h1, h2⟩ :=
    doTile_padding_is_zero exampleTiler exampleEnv exampleSource (by decide) (by decide) rfl
      1 1 2 2 0 (by decide) (by decide) (by decide) (by decide)
  obtain ⟨res, hres⟩ := h1 withinLimits_example
  refine ⟨res, hres, ?_, h2 res hres⟩
  obtain ⟨hrun, _, _⟩ := doTile_eq_some exampleTiler exampleEnv exampleSource (by decide)
    (by decide) rfl res hres
  subst hrun
  refine ⟨1, tileHdr 3 3 false, rowPointers 3 3 3, tileImage exampleSource 3 3 1 1, ?_⟩
  show _ ∈ tileTrace exampleTiler exampleEnv exampleSource 3 3
  rw [mem_tileTrace]
  exact ⟨1, 1, by decide, by decide, Or.inr (Or.inl rfl)⟩

/-- C3 as stated fails: for the positive tile dimensions 65536 x 65537 the
size `tileWidth * tileHeight * 3` of the `memset` that clears a tile is not
an `int`: the product `tileWidth * tileHeight` overflows, and a 32-bit machine
computes 196608 for a tile of 12885098496 bytes, the whole of which
`png_write_image` reads.  The run leaves defined behaviour and `doTile`
returns nothing, although the 5 x 5 example source leaves the local pixel
`(5, 0)` of tile `(0, 0)` uncovered. -/
theorem doTile_padding_is_zero_fails :
    (0 < wrapTiler.tileWidth ∧ 0 < wrapTiler.tileHeight) ∧
    imul wrapTiler.tileWidth wrapTiler.tileHeight = none ∧
    tileBytes wrapTiler 3 = none ∧
    toInt32 (u32 (wrapTiler.tileWidth * wrapTiler.tileHeight * 3)) = 196608 ∧
    wrapTiler.tileWidth * wrapTiler.tileHeight * 3 = 12885098496 ∧
    ((5 : Int) < wrapTiler.tileWidth ∧ exampleSource.width ≤ 0 * 65536 + 5) ∧
    wrapTiler.doTile exampleEnv = none := by
  decide

/-- C4, amended: for every source raster and positive `tileWidth`,
`tileHeight`, whenever `doTile` returns, every tile writer it has opened is
declared
with width `tileWidth`, height `tileHeight` and `tileHeight` row pointers,
whatever the position of the tile, and its `init` returned 0; at
`png_write_image` the writer has exactly `tileHeight` row pointers, row `ty`
starting at offset `ty * tileWidth * C` of the tile buffer, and the size
`tileWidth * tileHeight * C` of that buffer, computed in `int`, is the number of
bytes of the raster; the rows are disjoint slices of `tileWidth * C` bytes
that cover the buffer: every offset below `tileWidth * tileHeight * C` lies in
exactly one of them.  `doTile` does return within its limits. -/
theorem doTile_tile_dimensions (t : PngTiler) (env : TilerEnv) (src : PngSource)
    (htw : 0 < t.tileWidth) (hth : 0 < t.tileHeight) (hsrc : t.source env = some src) :
    (t.withinLimits env src → ∃ res, t.doTile env = some res) ∧
    (∀ res, t.doTile env = some res →
      (∀ i fn w h n rgba code acts, Event.init i fn w h n rgba code acts ∈ res.2 →
        w = t.tileWidth ∧ h = t.tileHeight ∧ n = t.tileHeight ∧ code = 0 ∧
        acts = [Action.png_write_info ⟨t.tileWidth, t.tileHeight, rgba⟩]) ∧
      (∀ i fn hdr ptrs img, Event.write_image i fn hdr ptrs img ∈ res.2 →
        hdr.width = t.tileWidth ∧ hdr.height = t.tileHeight ∧
        ptrs.length = t.tileHeight.toNat ∧
        (∀ ty, ty < t.tileHeight.toNat →
          ptrs[ty]? = some (ty * t.tileWidth.toNat * bppOf src.rgba)) ∧
        img.length = t.tileWidth.toNat * t.tileHeight.toNat * bppOf src.rgba ∧
        tileBytes t (bppOf src.rgba : Int) = some (img.length : Int))) ∧
    (∀ off, off < t.tileWidth.toNat * t.tileHeight.toNat * bppOf src.rgba →
      ∃! ty, ty < t.tileHeight.toNat ∧
        ty * t.tileWidth.toNat * bppOf src.rgba ≤ off ∧
        off < ty * t.tileWidth.toNat * bppOf src.rgba
          + t.tileWidth.toNat * bppOf src.rgba) := by
  refine ⟨doTile_returns_of_withinLimits t env src htw hth hsrc, ?_,
    fun off h => row_slices_partition _ _ _ off h⟩
  intro res hres
  obtain ⟨hrun, _, hsz⟩ := doTile_eq_some t env src htw hth hsrc res hres
  subst hrun
  have e1 : (t.tileWidth.toNat : Int) = t.tileWidth := by omega
  have e2 : (t.tileHeight.toNat : Int) = t.tileHeight := by omega
  have hbytes : 0 < numTiles src.width t.tileWidth.toNat →
      tileBytes t (bppOf src.rgba : Int)
        = some ((t.tileWidth.toNat * t.tileHeight.toNat * bppOf src.rgba : Nat) : Int) :=
    fun h => tileBytes_natCast t _ _ _ e1.symm e2.symm (bppOf_pos _) (hsz h)
  rw [← e1, ← e2]
  simp only [Int.toNat_natCast]
  generalize t.tileWidth.toNat = tw at *
  generalize t.tileHeight.toNat = th at *
  refine ⟨?_, ?_⟩
  · intro i fn w h n rgba code acts hmem
    change _ ∈ tileTrace t env src tw th at hmem
    rw [mem_tileTrace] at hmem
    obtain ⟨r, c, _, _, hmem⟩ := hmem
    rcases hmem with hmem | hmem | hmem
    · simp only [Event.init.injEq] at hmem
      obtain ⟨_, _, h3, h4, h5, h6, h7, h8⟩ := hmem
      subst h3 h4 h5 h6 h7 h8
      exact ⟨rfl, rfl, rfl, rfl, rfl⟩
    · cases hmem
    · cases hmem
  · intro i fn hdr ptrs img hmem
    change _ ∈ tileTrace t env src tw th at hmem
    rw [mem_tileTrace] at hmem
    obtain ⟨r, c, _, hc, hmem⟩ := hmem
    rcases hmem with hmem | hmem | hmem
    · cases hmem
    · simp only [Event.write_image.injEq] at hmem
      obtain ⟨_, _, h3, h4, h5⟩ := hmem
      subst h3 h4 h5
      have hlen : (tileImage src tw th r c).length = tw * th * bppOf src.rgba := by
        unfold tileImage
        rw [List.length_map, List.length_range, ← Nat.mul_assoc, Nat.mul_comm th tw]
      refine ⟨rfl, rfl, by simp [rowPointers], ?_, hlen, ?_⟩
      · intro ty hty
        unfold rowPointers
        rw [List.getElem?_map, List.getElem?_range hty]
        rfl
      · rw [hlen]
        exact hbytes (by omega)
    · cases hmem

/-- Witness of C4, amended, on the example run (3 x 3 RGB tiles): the run returns,
and every tile it has written has the header 3 x 3, three row pointers and
27 bytes. -/
theorem doTile_tile_dimensions_witness :
    (0 : Int) < exampleTiler.tileWidth ∧ (0 : Int) < exampleTiler.tileHeight ∧
    ∃ res, exampleTiler.doTile exampleEnv = some res ∧
      (∃ i fn hdr ptrs img, Event.write_image i fn hdr ptrs img ∈ res.2) ∧
      (∀ i fn hdr ptrs img, Event.write_image i fn hdr ptrs img ∈ res.2 →
        hdr.width = 3 ∧ hdr.height = 3 ∧ ptrs.length = 3 ∧ img.length = 27) := by
  refine ⟨by decide, by decide, ?_⟩
  obtain ⟨h1, h2, _⟩ :=
    doTile_tile_dimensions exampleTiler exampleEnv exampleSource (by decide) (by decide) rfl
  obtain ⟨res, hres⟩ := h1 withinLimits_example
  refine ⟨res, hres, ?_, ?_⟩
  · obtain ⟨hrun, _, _⟩ := doTile_eq_some exampleTiler exampleEnv exampleSource (by decide)
      (by decide) rfl res hres
    subst hrun
    refine ⟨0, exampleTiler.nameOf exampleEnv 0 0, tileHdr 3 3 false, rowPointers 3 3 3,
      tileImage exampleSource 3 3 0 0, ?_⟩
    show _ ∈ tileTrace exampleTiler exampleEnv exampleSource 3 3
    rw [mem_tileTrace]
    exact ⟨0, 0, by decide, by decide, Or.inr (Or.inl rfl)⟩
  · intro i fn hdr ptrs img hmem
    obtain ⟨a, b, c, _, e, _⟩ := (h2 res hres).2 i fn hdr ptrs img hmem
    exact ⟨a, b, c, e⟩

/-- C4 as stated fails: for the positive tile dimensions 65536 x 65537 the
rows cannot start at `ty * tileWidth * C` and cover a buffer of
`tileWidth * tileHeight * C` bytes: the buffer size is not an `int` (a 32-bit
machine allocates 196608 bytes, the size of one row), the offset of row
10923 of the 65537 rows overflows, and `doTile` returns nothing. -/
theorem doTile_tile_dimensions_fails :
    (0 < wrapTiler.tileWidth ∧ 0 < wrapTiler.tileHeight) ∧
    tileBytes wrapTiler 3 = none ∧
    toInt32 (u32 (wrapTiler.tileWidth * wrapTiler.tileHeight * 3)) = wrapTiler.tileWidth * 3 ∧
    ((10923 : Int) < wrapTiler.tileHeight ∧ rowOffset wrapTiler 3 10923 = none) ∧
    rowOffset wrapTiler 3 10922 = some 2147352576 ∧
    wrapTiler.doTile exampleEnv = none := by
  decide

/-- C10: every buffer access of the pixel scatter is in bounds.  For every
source width `W`, bytes per pixel `C` (3 or 4), positive `tileWidth`,
`tileHeight`, every `sx < W` and every source row `sy`: the tile column
`sx / tileWidth` is below `numPngW = ceil(W / tileWidth)`, the destination
range of `C` bytes at `((sy % tileHeight) * tileWidth + sx % tileWidth) * C`
ends at or before `tileWidth * tileHeight * C`, the source range of `C`
bytes at `sx * C` ends at or before `W * C`; and with
`tileWidth * tileHeight * C` and `W * C` not exceeding the `int` range, the
`int` expressions of the buffer size and of the two offsets take these
values without overflow and the `memcpy` step of the embedding is defined. -/
theorem scatterPixel_in_bounds (t : PngTiler) (src : PngSource)
    (htw : 0 < t.tileWidth) (hth : 0 < t.tileHeight) (sx sy : Nat) (hsx : sx < src.width) :
    ∃ numPngW tileCounterX tileOffsetX tileOffsetY : Int,
      ceilDiv src.width t.tileWidth = some numPngW ∧
      numPngW = ⌈(src.width : ℚ) / (t.tileWidth : ℚ)⌉ ∧
      cdiv sx t.tileWidth = some tileCounterX ∧
      cmod sx t.tileWidth = some tileOffsetX ∧
      cmod sy t.tileHeight = some tileOffsetY ∧
      (bppOf src.rgba = 3 ∨ bppOf src.rgba = 4) ∧
      0 ≤ tileCounterX ∧ tileCounterX < numPngW ∧
      0 ≤ (tileOffsetY * t.tileWidth + tileOffsetX) * bppOf src.rgba ∧
      (tileOffsetY * t.tileWidth + tileOffsetX) * bppOf src.rgba + bppOf src.rgba
        ≤ t.tileWidth * t.tileHeight * bppOf src.rgba ∧
      sx * bppOf src.rgba + bppOf src.rgba ≤ src.width * bppOf src.rgba ∧
      (t.tileWidth * t.tileHeight * (bppOf src.rgba : Int) ≤ 2147483647 →
        (src.width : Int) * (bppOf src.rgba : Int) ≤ 2147483647 →
        tileBytes t (bppOf src.rgba : Int)
          = some (t.tileWidth * t.tileHeight * (bppOf src.rgba : Int)) ∧
        pixelOffset t (bppOf src.rgba : Int) tileOffsetY tileOffsetX
          = some ((tileOffsetY * t.tileWidth + tileOffsetX) * (bppOf src.rgba : Int)) ∧
        imul (sx : Int) (bppOf src.rgba : Int) = some ((sx : Int) * (bppOf src.rgba : Int)) ∧
        ∀ s, (scatterPixel t src numPngW.toNat sy tileOffsetY sx s).isSome = true) := by
  obtain ⟨tw, htw'⟩ := Int.eq_ofNat_of_zero_le (le_of_lt htw)
  obtain ⟨th, hth'⟩ := Int.eq_ofNat_of_zero_le (le_of_lt hth)
  have htw0 : 0 < tw := by omega
  have hth0 : 0 < th := by omega
  have hcol : sx / tw < numTiles src.width tw := div_lt_ceil _ _ _ htw0 hsx
  have hmx : sx % tw < tw := Nat.mod_lt sx htw0
  have hmy : sy % th < th := Nat.mod_lt sy hth0
  have hb := pixel_offset_bound tw th (bppOf src.rgba) (sy % th) (sx % tw) hmy hmx
  have hceil := numTiles_eq_ceil src.width tw htw0
  have hbpos := bppOf_pos src.rgba
  have hguard : (0 : Int) ≤ ((sx / tw : Nat) : Int) ∧
      ((sx / tw : Nat) : Int) < ((numTiles src.width tw : Nat) : Int) ∧
      (0 : Int) ≤ (((sy % th : Nat) : Int) * (tw : Int) + ((sx % tw : Nat) : Int))
        * ((bppOf src.rgba : Nat) : Int) ∧
      (((sy % th : Nat) : Int) * (tw : Int) + ((sx % tw : Nat) : Int))
          * ((bppOf src.rgba : Nat) : Int) + ((bppOf src.rgba : Nat) : Int)
        ≤ (tw : Int) * (th : Int) * ((bppOf src.rgba : Nat) : Int) := by
    refine ⟨Int.ofNat_nonneg _, by exact_mod_cast hcol, by positivity, by exact_mod_cast hb⟩
  refine ⟨(numTiles src.width tw : Nat), (sx / tw : Nat), (sx % tw : Nat), (sy % th : Nat),
    ?_, ?_, ?_, ?_, ?_, ?_, hguard.1, hguard.2.1, ?_, ?_, ?_, ?_⟩
  · rw [htw']; exact ceilDiv_natCast _ _ htw0
  · rw [htw', hceil]; simp
  · rw [htw']; exact cdiv_natCast _ _ htw0
  · rw [htw']; exact cmod_natCast _ _ htw0
  · rw [hth']; exact cmod_natCast _ _ hth0
  · cases src.rgba <;> simp [bppOf]
  · rw [htw']; exact hguard.2.2.1
  · rw [htw', hth']; exact hguard.2.2.2
  · have : sx + 1 ≤ src.width := hsx
    have := Nat.mul_le_mul_right (bppOf src.rgba) this
    rw [Nat.add_mul, Nat.one_mul] at this
    exact this
  · intro hsize hrow
    rw [htw', hth'] at hsize
    have hS : tw * th * bppOf src.rgba ≤ intMax := by
      unfold intMax
      exact_mod_cast hsize
    have hW : src.width * bppOf src.rgba ≤ intMax := by
      unfold intMax
      exact_mod_cast hrow
    have hWx : sx * bppOf src.rgba ≤ intMax :=
      le_trans (Nat.mul_le_mul_right _ (le_of_lt hsx)) hW
    have e1 := tileBytes_natCast t tw th (bppOf src.rgba) htw' hth' hbpos hS
    have e2 := pixelOffset_natCast t tw th (bppOf src.rgba) (sy % th) (sx % tw) htw' hbpos hS
      hmy hmx
    have e3 := imul_natCast sx (bppOf src.rgba) hWx
    refine ⟨?_, ?_, ?_, ?_⟩
    · rw [e1, htw', hth']; push_cast; rfl
    · rw [e2, htw']; push_cast; rfl
    · rw [e3]; push_cast; rfl
    · intro s
      unfold scatterPixel
      simp only [htw', cdiv_natCast sx tw htw0, cmod_natCast sx tw htw0]
      simp only [e1, e2, e3, Int.toNat_natCast]
      have hguard2 : (0 : Int) ≤ ((sx / tw : Nat) : Int) ∧
          ((sx / tw : Nat) : Int) < ((numTiles src.width tw : Nat) : Int) ∧
          (0 : Int) ≤ (((sy % th * tw + sx % tw) * bppOf src.rgba : Nat) : Int) ∧
          (((sy % th * tw + sx % tw) * bppOf src.rgba : Nat) : Int)
              + ((bppOf src.rgba : Nat) : Int)
            ≤ ((tw * th * bppOf src.rgba : Nat) : Int) :=
        ⟨Int.ofNat_nonneg _, by exact_mod_cast hcol, Int.ofNat_nonneg _, by exact_mod_cast hb⟩
      rw [if_pos hguard2]
      rfl

/-- Witness of C10 at the last pixel of a row of the example source: the
tile column 1 is below `numPngW = 2`, and within the `int` range the copy is
defined. -/
theorem scatterPixel_in_bounds_witness :
    (0 : Int) < exampleTiler.tileWidth ∧ (0 : Int) < exampleTiler.tileHeight ∧
    4 < exampleSource.width ∧
    exampleTiler.tileWidth * exampleTiler.tileHeight * (bppOf exampleSource.rgba : Int)
      ≤ 2147483647 ∧
    (exampleSource.width : Int) * (bppOf exampleSource.rgba : Int) ≤ 2147483647 ∧
    ∃ numPngW tileCounterX tileOffsetY : Int,
      ceilDiv exampleSource.width exampleTiler.tileWidth = some numPngW ∧
      cdiv (4 : Nat) exampleTiler.tileWidth = some tileCounterX ∧
      0 ≤ tileCounterX ∧ tileCounterX < numPngW ∧
      ∀ s, (scatterPixel exampleTiler exampleSource numPngW.toNat 4 tileOffsetY 4 s).isSome
        = true := by
  refine ⟨by decide, by decide, by decide, by decide, by decide, ?_⟩
  obtain ⟨n, cx, _, oy, h1, _, h3, _, _, _, h7, h8, _, _, _, h12⟩ :=
    scatterPixel_in_bounds exampleTiler exampleSource (by decide) (by decide) 4 4 (by decide)
  exact ⟨n, cx, oy, h1, h3, h7, h8, (h12 (by decide) (by decide)).2.2.2⟩

/-! ## `doTile` and failures -/

/-- C5, amended: if decoding the source fails (`PngReader::init` returns a
non-zero code), `doTile` (with `tileWidth` other than 0) opens and writes no
tile, and it does not report the failure: it returns 0. -/
theorem doTile_after_failed_decode (t : PngTiler) (env : TilerEnv)
    (hfail : (PngReader.init env.files (PngReader.new env.end_info) t.filename).1 ≠ 0)
    (htw : t.tileWidth ≠ 0) :
    t.doTile env = some (0, []) := by
  rw [doTile_of_source t env emptySource (source_of_failed_init t env hfail)]
  unfold PngTiler.doTileFrom
  simp [ceilDiv, htw, emptySource, forLoop, Int.fdiv]

/-- Witness of C5, amended: the source file `map.png` does not open,
`PngReader::init` returns -1, and `doTile` returns 0 without a call on a
tile writer. -/
theorem doTile_after_failed_decode_witness :
    (PngReader.init failedSourceEnv.files (PngReader.new failedSourceEnv.end_info)
      exampleTiler.filename).1 = -1 ∧
    exampleTiler.tileWidth ≠ 0 ∧
    exampleTiler.doTile failedSourceEnv = some (0, []) :=
  ⟨by decide, by decide,
    doTile_after_failed_decode exampleTiler failedSourceEnv (by decide) (by decide)⟩

/-- C5 as stated fails: `doTile` never returns a non-zero status.  When the
source file does not open, `PngReader::init` returns -1 and `doTile`
returns 0; when the source opens and the file of the first tile does not,
`PngWriter::init` returns -1 and `doTile` returns no status at all (it
stores through the null `row_pointers` of that writer). -/
theorem doTile_does_not_report_init_failure :
    (PngReader.init failedSourceEnv.files (PngReader.new failedSourceEnv.end_info)
      exampleTiler.filename).1 = -1 ∧
    exampleTiler.doTile failedSourceEnv = some (0, []) ∧
    (PngReader.init noOutputEnv.files (PngReader.new noOutputEnv.end_info)
      exampleTiler.filename).1 = 0 ∧
    (PngWriter.init noOutputEnv.files PngWriter.new
      (tileName exampleTiler.dirOutput (noOutputEnv.mybasename exampleTiler.filename) 0 0)
      exampleTiler.tileWidth exampleTiler.tileHeight exampleTiler.tileHeight false).map
        (fun r => r.1) = some (-1) ∧
    exampleTiler.doTile noOutputEnv = none := by
  decide

/-- On positive tile dimensions, a run of `doTile` in which the
`PngWriter::init` of a tile of the grid does not return 0 does not return. -/
theorem doTile_of_failed_writer (t : PngTiler) (env : TilerEnv) (src : PngSource)
    (htw : 0 < t.tileWidth) (hth : 0 < t.tileHeight) (hsrc : t.source env = some src)
    (r c : Nat) (hr : r < numTiles src.height t.tileHeight.toNat)
    (hc : c < numTiles src.width t.tileWidth.toNat)
    (hfail : (PngWriter.init env.files PngWriter.new
      (tileName t.dirOutput (env.mybasename t.filename) r c)
      t.tileWidth t.tileHeight t.tileHeight src.rgba).map (fun r => r.1) ≠ some 0) :
    t.doTile env = none := by
  cases h : t.doTile env with
  | none => rfl
  | some res =>
    exfalso
    obtain ⟨_, hok, _⟩ := doTile_eq_some t env src htw hth hsrc res h
    have h1 := ((tileOk_iff t env r c).mp (hok r c hr hc)).2
    exact hfail ((PngWriter.init_code_eq_zero_iff _ _ _ _ _ _ _).mpr h1)

theorem tileRow_none_of_zero_height (t : PngTiler) (env : TilerEnv) (src : PngSource)
    (numPngW sy : Nat) (s : TileState) (hth : t.tileHeight = 0) :
    tileRow t env src numPngW sy s = none := by
  unfold tileRow
  simp only [hth, cmod, if_true, Option.none_bind]
  cases (if s.initPngFlag = false then
      Option.map (fun s1 => { s1 with tileCounterY := s1.tileCounterY + 1 })
        (forLoop numPngW (initTile t env src.rgba) { s with initPngFlag := true })
    else some s) <;> rfl

theorem ceilDiv_nonpos_of_neg (a : Nat) (b n : Int) (hb : b < 0)
    (h : ceilDiv a b = some n) : n ≤ 0 := by
  unfold ceilDiv at h
  rw [if_neg (by omega)] at h
  cases h
  have : 0 ≤ Int.fdiv (-(a : Int)) b := by
    cases a with
    | zero => simp [Int.fdiv]
    | succ m =>
      obtain ⟨k, rfl⟩ := Int.eq_negSucc_of_lt_zero hb
      have e : -(((m + 1 : Nat)) : Int) = Int.negSucc m := rfl
      rw [e]
      show 0 ≤ Int.ofNat (Nat.succ m / Nat.succ k)
      exact Int.ofNat_nonneg _
  omega

/-- Without a tile column there is no buffer to copy a pixel to. -/
theorem scatterPixel_none_of_no_columns (t : PngTiler) (src : PngSource) (sy : Nat) (oy : Int)
    (sx : Nat) (s : TileState) : scatterPixel t src 0 sy oy sx s = none := by
  unfold scatterPixel
  simp only []
  split
  · split
    · rw [if_neg]
      intro h
      have h1 := h.1
      have h2 := h.2.1
      simp only [Nat.cast_zero] at h2
      omega
    · rfl
  · rfl

theorem tileRow_none_of_no_columns (t : PngTiler) (env : TilerEnv) (src : PngSource)
    (hW : 0 < src.width) (sy : Nat) (s : TileState) :
    tileRow t env src 0 sy s = none := by
  have hsc : ∀ oy s1, forLoop src.width (scatterPixel t src 0 sy oy) s1 = none := fun oy s1 =>
    forLoop_none_of_body_none _ (fun i a => scatterPixel_none_of_no_columns t src sy oy i a)
      _ hW s1
  unfold tileRow
  simp only [forLoop_zero, Option.map_some']
  cases s.initPngFlag <;> cases cmod (sy : Int) t.tileHeight <;> simp [hsc]

theorem tileBytes_eq_some_int (t : PngTiler) (bpp size : Int) (h : tileBytes t bpp = some size) :
    size = t.tileWidth * t.tileHeight * bpp := by
  unfold tileBytes at h
  rw [Option.bind_eq_some] at h
  obtain ⟨p, h1, h2⟩ := h
  obtain ⟨e1, _⟩ := checkInt_eq_some _ _ h1
  obtain ⟨e2, _⟩ := checkInt_eq_some _ _ h2
  rw [e2, e1]

/-- With `tileWidth <= 0` or `tileHeight <= 0` the loops of `doTile` do not
return on a raster with a pixel. -/
theorem doTileFrom_nonpositive (t : PngTiler) (env : TilerEnv) (src : PngSource)
    (hdim : t.tileWidth ≤ 0 ∨ t.tileHeight ≤ 0) (hW : 0 < src.width) (hH : 0 < src.height) :
    t.doTileFrom env src = none := by
  rcases lt_trichotomy t.tileWidth 0 with hneg | hz | hpos
  · -- `numPngW <= 0`: a negative array size, or no buffer at all
    unfold PngTiler.doTileFrom
    simp only []
    cases hn : ceilDiv (src.width : Int) t.tileWidth with
    | none => rfl
    | some n =>
      simp only []
      have hle := ceilDiv_nonpos_of_neg _ _ _ hneg hn
      by_cases hlt : n < 0
      · rw [if_pos hlt]
      · rw [if_neg hlt]
        have hn0 : n.toNat = 0 := by omega
        simp only [hn0, if_true]
        rw [forLoop_none_of_body_none _
          (fun i s => tileRow_none_of_no_columns t env src hW i s) _ hH]
  · -- the conversion of an infinity to `int`
    unfold PngTiler.doTileFrom
    simp [ceilDiv, hz]
  · have hth : t.tileHeight ≤ 0 := by
      rcases hdim with h | h
      · omega
      · exact h
    obtain ⟨tw, htw'⟩ := Int.eq_ofNat_of_zero_le (le_of_lt hpos)
    have htw0 : 0 < tw := by omega
    rw [doTileFrom_unfold t env src tw htw0 htw']
    have hcols : numTiles src.width tw ≠ 0 := by
      have h0 := div_lt_ceil src.width tw 0 htw0 hW
      rw [Nat.zero_div] at h0
      exact Nat.ne_of_gt h0
    rw [if_neg hcols]
    rcases lt_or_eq_of_le hth with hlt | hz
    · -- a tile buffer of negative size
      cases hsz : tileBytes t ((bppOf src.rgba : Nat) : Int) with
      | none => rfl
      | some size =>
        have e := tileBytes_eq_some_int t _ size hsz
        have hb : (0 : Int) < ((bppOf src.rgba : Nat) : Int) := by
          exact_mod_cast bppOf_pos _
        have h1 : t.tileWidth * t.tileHeight < 0 := Int.mul_neg_of_pos_of_neg hpos hlt
        have h2 : size < 0 := by
          rw [e]; exact Int.mul_neg_of_neg_of_pos h1 hb
        simp only [h2, if_true, Option.none_bind]
    · -- the remainder `sy % tileHeight` by zero
      rw [forLoop_none_of_body_none _
        (fun i s => tileRow_none_of_zero_height t env src _ i s hz) _ hH]
      cases (match tileBytes t ((bppOf src.rgba : Nat) : Int) with
        | none => none
        | some size => if size < 0 then none else some ()) <;> rfl

/-- C6, amended: `PngTiler` makes no check of its tile dimensions and
`doTile` has no `InvalidParameter` status.  Constructed with
`tileWidth <= 0` or `tileHeight <= 0`, `doTile` returns no status at all on a
source raster (`W >= 1`, `H >= 1`): the run ends in the conversion of an
infinity to `int`, an array `new` of negative size, a copy to a buffer that
does not exist, `abort()` on a header that libpng rejects, or a remainder by
zero. -/
theorem doTile_nonpositive_tile_size (t : PngTiler) (env : TilerEnv) (src : PngSource)
    (hdim : t.tileWidth ≤ 0 ∨ t.tileHeight ≤ 0) (hsrc : t.source env = some src)
    (hW : 1 ≤ src.width) (hH : 1 ≤ src.height) :
    t.doTile env = none := by
  rw [doTile_of_source t env src hsrc]
  exact doTileFrom_nonpositive t env src hdim hW hH

/-- Witness of C6, amended: `tileHeight = 0` on the 5 x 5 example source. -/
theorem doTile_nonpositive_tile_size_witness :
    (flatTiler.tileWidth ≤ 0 ∨ flatTiler.tileHeight ≤ 0) ∧
    ((flatTiler.source exampleEnv).map fun s => (s.width, s.height)) = some (5, 5) ∧
    (1 ≤ exampleSource.width ∧ 1 ≤ exampleSource.height) ∧
    flatTiler.doTile exampleEnv = none :=
  ⟨by decide, rfl, by decide,
    doTile_nonpositive_tile_size flatTiler exampleEnv exampleSource (by decide) rfl (by decide)
      (by decide)⟩

/-- C6 as stated fails.  With `tileHeight = 0` and a source file that does
not open, `doTile` returns the status 0, not a failure.  With
`tileHeight = 0` on the 5 x 5 example source `doTile` returns no status at
all, and the first tile file has been created by then: `doTile` reaches the
`init` of tile `(0, 0)`, in which `fopen` opens `tiles/map.png.0.0.png` for
writing before libpng rejects the header of height 0 and `open` calls
`abort()`.  `tileWidth = 0` and `tileWidth = -3` give no status either. -/
theorem doTile_accepts_nonpositive_tile_size :
    flatTiler.tileHeight ≤ 0 ∧
    flatTiler.doTile failedSourceEnv = some (0, []) ∧
    flatTiler.doTile exampleEnv = none ∧
    ceilDiv (exampleSource.width : Int) flatTiler.tileWidth = some 2 ∧
    tileBytes flatTiler 3 = some 0 ∧
    sprintf256 (tileName flatTiler.dirOutput (exampleEnv.mybasename flatTiler.filename) 0 0)
      = some "tiles/map.png.0.0.png" ∧
    exampleEnv.files.fopen "tiles/map.png.0.0.png" = some 1 ∧
    exampleEnv.files.set_IHDR flatTiler.tileWidth flatTiler.tileHeight = false ∧
    PngWriter.init exampleEnv.files PngWriter.new "tiles/map.png.0.0.png"
      flatTiler.tileWidth flatTiler.tileHeight flatTiler.tileHeight false = none ∧
    PngTiler.doTile ⟨"map.png", 0, 3, "tiles"⟩ exampleEnv = none ∧
    PngTiler.doTile ⟨"map.png", -3, 3, "tiles"⟩ exampleEnv = none := by
  decide

end mcpe_viz
